import Mathlib

/-!
# Verification of the CBBA task-allocation solver

A shallow embedding of `src/lib/CBBA.py` (Consensus-Based Bundle Algorithm).
Python floats are modelled as rationals; `math.sqrt` and `math.exp` are
modelled as the fields of an explicit `MathFns` parameter, so the whole
development is executable.  Fallible Python code (uncaught exceptions) is
modelled with `Except CErr`.
-/

set_option maxRecDepth 8000

namespace CBBA

/-- The transcendental float functions `math.sqrt` and `math.exp` used by the
scoring code, kept abstract: every theorem below holds for an arbitrary
interpretation, and concrete runs instantiate them at the (rational) points
they are actually applied to. -/
structure MathFns where
  sqrt : ℚ → ℚ
  exp : ℚ → ℚ

/-- Uncaught Python exceptions of the solver, one constructor per raise site:
`unknownAgentType` is `raise Exception("Unknown agent type!")` in
`scoring_compute_score`; `unknownWinnerValue` the four
`raise Exception("Unknown winner value: please revise!")` sites in
`communicate`; `entry12Unknown` the
`raise Exception("Unknown condition for Entry 12: please revise!")` site;
`emptyArgmax` the `ValueError` numpy raises for `array_max.argmax()` on an
empty array in `bundle_add`; `taskNotInPath` the `ValueError` of
`path_current.index(...)` in `bundle_remove` when the element is absent. -/
inductive CErr where
  | unknownAgentType
  | unknownWinnerValue
  | entry12Unknown
  | emptyArgmax
  | taskNotInPath
deriving DecidableEq, Repr

/-- Python list read `l[i]` with negative-index wraparound.  An index that is
still out of range yields the default (Python would raise `IndexError`); the
reachable states proved about below never index out of range. -/
def pyGet (l : List α) (i : Int) (d : α) : α :=
  if i < 0 then l.getD ((l.length : Int) + i).toNat d else l.getD i.toNat d

/-- Python list write `l[i] = v` with negative-index wraparound; out of range
is a no-op (Python would raise `IndexError`). -/
def pySet (l : List α) (i : Int) (v : α) : List α :=
  if i < 0 then l.set ((l.length : Int) + i).toNat v else l.set i.toNat v

/-- Python `l.insert(i, v)` (clamping semantics, negative indices count from
the end) followed by `del l[-1]`, the fixed-length insertion idiom the solver
uses on `path_list`, `times_list`, `scores_list` and the feasibility rows. -/
def pyInsertDropLast (l : List α) (i : Int) (v : α) : List α :=
  let k : Nat := if i < 0 then ((l.length : Int) + i).toNat else i.toNat
  (l.take k ++ v :: l.drop k).dropLast

/-- First index at which `p` holds. -/
def firstIdx (p : α → Bool) : List α → Option Nat
  | [] => none
  | a :: l => if p a then some 0 else (firstIdx p l).map (· + 1)

/-- `numpy.argmax`: the first index attaining the maximum value;
`none` on the empty list (numpy raises `ValueError`). -/
def argmaxIdx (l : List ℚ) : Option Nat :=
  match l with
  | [] => none
  | x :: xs =>
    let f : (Nat × Nat × ℚ) → ℚ → (Nat × Nat × ℚ) := fun (cur, bi, bv) v =>
      if bv < v then (cur + 1, cur, v) else (cur + 1, bi, bv)
    some (xs.foldl f (1, 0, x)).2.1

/-- Python `max(l)` on a nonempty list; `0` on the empty list (unreachable in
the embedding: the preceding `argmax` errors first, as numpy does). -/
def pyMax (l : List ℚ) : ℚ :=
  match l with
  | [] => 0
  | x :: xs => xs.foldl max x

deriving instance DecidableEq for Except

/-- Error-propagating left fold over `Except`, the shape of every loop of the
solver that can raise. -/
def exceptFold (f : α → β → Except CErr α) : List β → α → Except CErr α
  | [], a => .ok a
  | b :: bs, a =>
    match f a b with
    | .error e => .error e
    | .ok a' => exceptFold f bs a'

/-- The `Agent` dataclass (fields as read by `CBBA.py`). -/
structure Agent where
  agent_id : Int
  agent_type : Nat
  x : ℚ
  y : ℚ
  z : ℚ
  nom_velocity : ℚ
  availability : ℚ
deriving DecidableEq, Repr

/-- The `Task` dataclass (fields as read by `CBBA.py`). -/
structure Task where
  task_id : Int
  task_type : Nat
  x : ℚ
  y : ℚ
  z : ℚ
  start_time : ℚ
  end_time : ℚ
  duration : ℚ
  task_value : ℚ
  discount : ℚ
deriving DecidableEq, Repr

/-- Default `Task` used as the `getD` fallback for list reads that are in
range in every reachable state. -/
def dTask : Task := ⟨-1, 0, 0, 0, 0, 0, 0, 0, 0, 0⟩

/-- Default `Agent`, same role as `dTask`. -/
def dAgent : Agent := ⟨-1, 0, 0, 0, 0, 0, 0⟩

/-- `WorldInfo`: axis-aligned spatial bounds.  `solve` stores them but the
solver core never reads them (they feed only the plotting code). -/
structure WorldInfo where
  limit_x : ℚ × ℚ
  limit_y : ℚ × ℚ
  limit_z : ℚ × ℚ
deriving DecidableEq, Repr

/-- Constructor-time configuration of the `CBBA` object: the compatibility
matrix built in `__init__` and the indices `agent_types.index("quad")`,
`agent_types.index("car")` used by the scoring dispatch. -/
structure Config where
  compatibility_mat : List (List ℚ)
  quadIdx : Nat
  carIdx : Nat
deriving DecidableEq, Repr

/-- The per-solve state of the `CBBA` object (the fields `settings`
initializes and the solver loop mutates). -/
structure St where
  num_agents : Nat
  num_tasks : Nat
  max_depth : Nat
  time_window_flag : Bool
  agent_index_list : List Int
  bundle_list : List (List Int)
  path_list : List (List Int)
  times_list : List (List ℚ)
  scores_list : List (List ℚ)
  bid_list : List (List ℚ)
  winners_list : List (List Int)
  winner_bid_list : List (List ℚ)
  graph : List (List Bool)
  AgentList : List Agent
  TaskList : List Task
  world : WorldInfo
deriving DecidableEq, Repr

/-- `CBBA.settings`: build the fresh assignment state for a solve call
(all bundle/path/times/scores/bid/winners/winner_bid entries are the `-1`
sentinel, the graph is complete minus the diagonal). -/
def settings (AgentList : List Agent) (TaskList : List Task) (w : WorldInfo)
    (max_depth : Nat) (time_window_flag : Bool) : St :=
  let n := AgentList.length
  let m := TaskList.length
  { num_agents := n
    num_tasks := m
    max_depth := max_depth
    time_window_flag := time_window_flag
    agent_index_list := AgentList.map (·.agent_id)
    bundle_list := List.replicate n (List.replicate max_depth (-1))
    path_list := List.replicate n (List.replicate max_depth (-1))
    times_list := List.replicate n (List.replicate max_depth (-1))
    scores_list := List.replicate n (List.replicate max_depth (-1))
    bid_list := List.replicate n (List.replicate m (-1))
    winners_list := List.replicate n (List.replicate m (-1))
    winner_bid_list := List.replicate n (List.replicate m (-1))
    graph := (List.range n).map fun k => (List.range n).map fun i => decide (k ≠ i)
    AgentList := AgentList
    TaskList := TaskList
    world := w }

/-- `CBBA.scoring_compute_score`: marginal score of inserting `task_current`
between `prev` and `next` in the path of agent `idx_agent` (the Python
arguments `task_prev, time_prev` resp. `task_next, time_next`, which are
`[]`/`[]` for the first resp. last position, are modelled as `Option`
pairs).  Returns `(score, min_start, max_start)`; raises for an agent type
with no scoring branch. -/
def scoring_compute_score (m : MathFns) (cfg : Config) (s : St) (idx_agent : Nat)
    (task_current : Task) (prev : Option (Task × ℚ)) (next : Option (Task × ℚ)) :
    Except CErr (ℚ × ℚ × ℚ) :=
  let ag := s.AgentList.getD idx_agent dAgent
  if ag.agent_type = cfg.quadIdx ∨ ag.agent_type = cfg.carIdx then
    let min_start :=
      match prev with
      | none =>
        let dt := m.sqrt ((ag.x - task_current.x) ^ 2 + (ag.y - task_current.y) ^ 2 +
          (ag.z - task_current.z) ^ 2) / ag.nom_velocity
        max task_current.start_time (ag.availability + dt)
      | some (task_prev, time_prev) =>
        let dt := m.sqrt ((task_prev.x - task_current.x) ^ 2 + (task_prev.y - task_current.y) ^ 2 +
          (task_prev.z - task_current.z) ^ 2) / ag.nom_velocity
        max task_current.start_time (time_prev + task_prev.duration + dt)
    let max_start :=
      match next with
      | none => task_current.end_time
      | some (task_next, time_next) =>
        let dt := m.sqrt ((task_next.x - task_current.x) ^ 2 + (task_next.y - task_current.y) ^ 2 +
          (task_next.z - task_current.z) ^ 2) / ag.nom_velocity
        min task_current.end_time (time_next - task_current.duration - dt)
    let reward :=
      if s.time_window_flag then
        task_current.task_value * m.exp ((-task_current.discount) * (min_start - task_current.start_time))
      else
        let dt_current := m.sqrt ((ag.x - task_current.x) ^ 2 + (ag.y - task_current.y) ^ 2 +
          (ag.z - task_current.z) ^ 2) / ag.nom_velocity
        task_current.task_value * m.exp ((-task_current.discount) * dt_current)
    .ok (reward, min_start, max_start)
  else
    .error .unknownAgentType

/-- Accumulator of the insertion-position loop of `compute_bid`:
`(best_bid, best_index, best_time, feasibility)`. -/
abbrev BidAcc := ℚ × Int × ℚ × List (List Bool)

/-- Body of the `for j in range(empty_task_index_list[0]+1)` loop of
`compute_bid`: try inserting task `idx_task` at position `j`. -/
def compute_bid_pos (m : MathFns) (cfg : Config) (s : St) (idx_agent : Nat)
    (idx_task : Nat) (pathLen : Nat) (acc : BidAcc) (j : Nat) :
    Except CErr BidAcc := do
  let (best_bid, best_index, best_time, feasibility) := acc
  if (feasibility.getD idx_task []).getD j false = true then
    let prev : Option (Task × ℚ) :=
      if j = 0 then none
      else some (pyGet s.TaskList (pyGet (s.path_list.getD idx_agent []) ((j : Int) - 1) (-1)) dTask,
        (s.times_list.getD idx_agent []).getD (j - 1) (-1))
    let next : Option (Task × ℚ) :=
      if j = pathLen then none
      else some (pyGet s.TaskList (pyGet (s.path_list.getD idx_agent []) (j : Int) (-1)) dTask,
        (s.times_list.getD idx_agent []).getD j (-1))
    let (score, min_start, max_start) ←
      scoring_compute_score m cfg s idx_agent (s.TaskList.getD idx_task dTask) prev next
    if s.time_window_flag then
      if min_start > max_start then
        -- infeasible: prune this (task, position) cell and skip
        let feasibility' := feasibility.set idx_task ((feasibility.getD idx_task []).set j false)
        return (best_bid, best_index, best_time, feasibility')
      else
        if score > best_bid then
          return (score, (j : Int), min_start, feasibility)
        else
          return acc
    else
      if score > best_bid then
        return (score, (j : Int), 0, feasibility)
      else
        return acc
  else
    return acc

/-- Body of the `for idx_task in range(self.num_tasks)` loop of
`compute_bid`: skip incompatible tasks and tasks already in the path,
otherwise scan the insertion positions and publish the best positive bid
into the agent's `bid_list` row. -/
def compute_bid_task (m : MathFns) (cfg : Config) (idx_agent : Nat) (pathLen : Nat)
    (acc : List Int × List ℚ × List (List Bool) × St) (idx_task : Nat) :
    Except CErr (List Int × List ℚ × List (List Bool) × St) :=
  let best_indices := acc.1
  let task_times := acc.2.1
  let feasibility := acc.2.2.1
  let s := acc.2.2.2
  let ag := s.AgentList.getD idx_agent dAgent
  let tk := s.TaskList.getD idx_task dTask
  if (cfg.compatibility_mat.getD ag.agent_type []).getD tk.task_type 0 > 1/2 then
    -- the path must not already contain this task
    if ((s.path_list.getD idx_agent []).take pathLen).countP (· == (idx_task : Int)) = 0 then
      match exceptFold (compute_bid_pos m cfg s idx_agent idx_task pathLen)
          (List.range (pathLen + 1)) ((0 : ℚ), (-1 : Int), (-2 : ℚ), feasibility) with
      | .error e => .error e
      | .ok r =>
        if r.1 > 0 then
          let newBidRow := (s.bid_list.getD idx_agent []).set idx_task r.1
          .ok (best_indices.set idx_task r.2.1, task_times.set idx_task r.2.2.1, r.2.2.2,
            { s with bid_list := s.bid_list.set idx_agent newBidRow })
        else
          .ok (best_indices, task_times, r.2.2.2, s)
    else .ok acc
  else .ok acc

/-- `CBBA.compute_bid`: per-task best insertion index, best start time and the
updated feasibility matrix; overwrites the agent's `bid_list` row.  When the
path has no free slot it returns empties (including an emptied feasibility
matrix), exactly as the source does. -/
def compute_bid (m : MathFns) (cfg : Config) (s : St) (idx_agent : Nat)
    (feasibility : List (List Bool)) :
    Except CErr (List Int × List ℚ × List (List Bool) × St) :=
  match firstIdx (· == (-1 : Int)) (s.path_list.getD idx_agent []) with
  | none => .ok ([], [], [], s)
  | some pathLen =>
    let s := { s with bid_list := s.bid_list.set idx_agent (List.replicate s.num_tasks (-1)) }
    exceptFold (compute_bid_task m cfg idx_agent pathLen) (List.range s.num_tasks)
      (List.replicate s.num_tasks (-1), List.replicate s.num_tasks (-2), feasibility, s)

/-- The release performed for one outbid bundle position `idx` inside
`bundle_remove`: overwrite the winners/winning-bid rows, delete position
`idx_remove` from the path, times and scores rows (appending a `-1` sentinel
to keep the length), and clear bundle position `idx`. -/
def remove_upd (s : St) (idx_agent : Nat) (winnersRow : List Int) (wbidRow : List ℚ)
    (idx idx_remove : Nat) : St :=
  { s with
    winners_list := s.winners_list.set idx_agent winnersRow
    winner_bid_list := s.winner_bid_list.set idx_agent wbidRow
    path_list := s.path_list.set idx_agent
      ((s.path_list.getD idx_agent []).eraseIdx idx_remove ++ [-1])
    times_list := s.times_list.set idx_agent
      ((s.times_list.getD idx_agent []).eraseIdx idx_remove ++ [-1])
    scores_list := s.scores_list.set idx_agent
      ((s.scores_list.getD idx_agent []).eraseIdx idx_remove ++ [-1])
    bundle_list := s.bundle_list.set idx_agent
      ((s.bundle_list.getD idx_agent []).set idx (-1)) }

/-- The `for idx in range(self.max_depth)` loop of `bundle_remove`, recursing
over the remaining position list; the `break` on a `-1` bundle entry returns
the current state. -/
def bundle_remove_go (idx_agent : Nat) (aid : Int) : List Nat → St → Bool → Except CErr St
  | [], s, _ => .ok s
  | idx :: rest, s, out_bid =>
    let b := (s.bundle_list.getD idx_agent []).getD idx (-1)
    if b < 0 then .ok s
    else
      let out_bid' := if pyGet (s.winners_list.getD idx_agent []) b (-1) ≠ aid then true else out_bid
      if out_bid' then
        let winnersRow :=
          if pyGet (s.winners_list.getD idx_agent []) b (-1) = aid then
            pySet (s.winners_list.getD idx_agent []) b (-1)
          else s.winners_list.getD idx_agent []
        let wbidRow :=
          if pyGet (s.winners_list.getD idx_agent []) b (-1) = aid then
            pySet (s.winner_bid_list.getD idx_agent []) b (-1)
          else s.winner_bid_list.getD idx_agent []
        match firstIdx (· == b) (s.path_list.getD idx_agent []) with
        | none => .error .taskNotInPath
        | some idx_remove =>
          bundle_remove_go idx_agent aid rest
            (remove_upd s idx_agent winnersRow wbidRow idx idx_remove) out_bid'
      else
        bundle_remove_go idx_agent aid rest s out_bid'

/-- `CBBA.bundle_remove`: walk the agent's bundle; once a task whose believed
winner differs from `agent_index_list[idx_agent]` is met, release it and every
later bundle entry from winners/path/times/scores. -/
def bundle_remove (s : St) (idx_agent : Nat) : Except CErr St :=
  bundle_remove_go idx_agent (s.agent_index_list.getD idx_agent 0)
    (List.range s.max_depth) s false

/-- The epsilon of `bundle_add` (`epsilon = 1e-5`). -/
def bundleEps : ℚ := 1 / 100000

/-- `sys.float_info.max`, the sentinel that starts the start-time tie-break
scan in `bundle_add` (the arithmetic is done in `ℕ` so that it evaluates
fast). -/
def FLOAT_MAX : ℚ := (((2 ^ 53 - 1) * 2 ^ 971 : ℕ) : ℚ)

/-- The availability mask of `bundle_add`: task `j` can be won when the
agent's bid beats the believed winning bid by more than epsilon, or ties
within epsilon and `agent_index_list[idx_agent]` is smaller than the believed
winner. -/
def bid_mask (agent_index : Int) (bid wbid : List ℚ) (winners : List Int) (j : Nat) : Bool :=
  (bid.getD j (-1) - wbid.getD j (-1) > bundleEps) ||
    (|bid.getD j (-1) - wbid.getD j (-1)| ≤ bundleEps && agent_index < winners.getD j (-1))

/-- `array_max = np.array(bid_list[idx_agent]) * mask` of `bundle_add`. -/
def array_max_list (s : St) (idx_agent : Nat) : List ℚ :=
  let bid := s.bid_list.getD idx_agent []
  let wbid := s.winner_bid_list.getD idx_agent []
  let winners := s.winners_list.getD idx_agent []
  let aid := s.agent_index_list.getD idx_agent 0
  (List.range s.num_tasks).map fun j =>
    if bid_mask aid bid wbid winners j then bid.getD j (-1) else 0

/-- The start-time tie-break scan of `bundle_add`: among `all_values`, the
first task whose `start_time` is strictly smaller than every earlier one. -/
def tie_break (tasks : List Task) (all_values : List Nat) (init : Nat) : Nat :=
  (all_values.foldl (fun (acc : ℚ × Nat) i =>
    if (tasks.getD i dTask).start_time < acc.1 then ((tasks.getD i dTask).start_time, i)
    else acc) (FLOAT_MAX, init)).2

/-- Task selection of one `bundle_add` iteration (lines building
`array_logical_*`, `array_max`, `best_task`, `value_max` and the tie-break):
`none` when no selected bid is strictly positive, the chosen task index
otherwise; errors like numpy's `argmax` on an empty array. -/
def select_task (s : St) (idx_agent : Nat) : Except CErr (Option Nat) :=
  let arrayMax := array_max_list s idx_agent
  match argmaxIdx arrayMax with
  | none => .error .emptyArgmax
  | some best_task0 =>
    let value_max := pyMax arrayMax
    if value_max > 0 then
      let all_values := (List.range s.num_tasks).filter fun j => arrayMax.getD j 0 == value_max
      let best_task :=
        if all_values.length = 1 then all_values.headD best_task0
        else tie_break s.TaskList all_values best_task0
      .ok (some best_task)
    else
      .ok none

/-- One iteration of the `while not bundle_full_flag` loop of `bundle_add`:
recompute bids, select a task; on selection insert it into winners, path,
times, scores, bundle and shift the feasibility columns.  `none` means the
loop breaks (no positive improving bid). -/
def bundle_add_step (m : MathFns) (cfg : Config) (s : St) (idx_agent : Nat)
    (feasibility : List (List Bool)) : Except CErr (Option (St × List (List Bool))) :=
  match compute_bid m cfg s idx_agent feasibility with
  | .error e => .error e
  | .ok (best_indices, task_times, feasibility, s) =>
    match select_task s idx_agent with
    | .error e => .error e
    | .ok none => .ok none
    | .ok (some best_task) =>
      let bidRow := s.bid_list.getD idx_agent []
      let bi := best_indices.getD best_task (-1)
      let bundleRow := s.bundle_list.getD idx_agent []
      let length := bundleRow.countP (· > (-1 : Int))
      let s' := { s with
        winners_list := s.winners_list.set idx_agent
          ((s.winners_list.getD idx_agent []).set best_task ((s.AgentList.getD idx_agent dAgent).agent_id))
        winner_bid_list := s.winner_bid_list.set idx_agent
          ((s.winner_bid_list.getD idx_agent []).set best_task (bidRow.getD best_task (-1)))
        path_list := s.path_list.set idx_agent
          (pyInsertDropLast (s.path_list.getD idx_agent []) bi (best_task : Int))
        times_list := s.times_list.set idx_agent
          (pyInsertDropLast (s.times_list.getD idx_agent []) bi (task_times.getD best_task (-2)))
        scores_list := s.scores_list.set idx_agent
          (pyInsertDropLast (s.scores_list.getD idx_agent []) bi (bidRow.getD best_task (-1)))
        bundle_list := s.bundle_list.set idx_agent (bundleRow.set length (best_task : Int)) }
      let feas' := (List.range s.num_tasks).map fun i =>
        let row := feasibility.getD i []
        pyInsertDropLast row bi (pyGet row bi false)
      .ok (some (s', feas'))

/-- The `while not bundle_full_flag` loop of `bundle_add`, with explicit fuel.
Each pass that adds a task fills one bundle slot, so `max_depth + 1` fuel is
never exhausted from a well-formed state (on exhaustion the current state is
returned; the Python loop has no such exit). -/
def bundle_add_loop (m : MathFns) (cfg : Config) (fuel : Nat) (s : St) (idx_agent : Nat)
    (feasibility : List (List Bool)) (new_bid_flag : Bool) : Except CErr (St × Bool) :=
  match fuel with
  | 0 => .ok (s, new_bid_flag)
  | fuel + 1 =>
    if (-1 : Int) ∈ s.bundle_list.getD idx_agent [] then
      match bundle_add_step m cfg s idx_agent feasibility with
      | .error e => .error e
      | .ok none => .ok (s, new_bid_flag)
      | .ok (some (s', feas')) => bundle_add_loop m cfg fuel s' idx_agent feas' true
    else
      .ok (s, new_bid_flag)

/-- `CBBA.bundle_add`: greedily add improving tasks until the bundle is full
or no positive improvement remains; returns the flag `new_bid_flag`. -/
def bundle_add (m : MathFns) (cfg : Config) (s : St) (idx_agent : Nat) :
    Except CErr (St × Bool) :=
  let feasibility := List.replicate s.num_tasks (List.replicate (s.max_depth + 1) true)
  bundle_add_loop m cfg (s.max_depth + 1) s idx_agent feasibility false

/-- `CBBA.bundle`: remove outbid tasks, then add new ones. -/
def bundle (m : MathFns) (cfg : Config) (s : St) (idx_agent : Nat) :
    Except CErr (St × Bool) := do
  let s ← bundle_remove s idx_agent
  bundle_add m cfg s idx_agent

/-- The epsilon of `communicate` (`epsilon = 10e-6`). -/
def commEps : ℚ := 1 / 100000

/-- The three actions of the CBBA decision table: copy the sender's belief
("Update"), clear the receiver's belief ("Reset"), or keep it ("Leave").
Every branch body of the source's 17-entry if-elif chain is one of these. -/
inductive CAct where
  | upd
  | res
  | leave
deriving DecidableEq, Repr

/-- Entries 1 to 4 of the action table: the sender thinks he has the task. -/
def comm_act_sender_self (k i : Nat) (ozkj zij : Int) (oykj yij : ℚ) (tmk tmni : List ℚ) :
    Except CErr CAct :=
  if zij = (i : Int) then  -- Entry 1
    if oykj - yij > commEps then .ok .upd
    else if |oykj - yij| ≤ commEps then
      if zij > ozkj then .ok .upd else .ok .leave
    else .ok .leave
  else if zij = (k : Int) then .ok .upd  -- Entry 2
  else if zij > -1 then  -- Entry 3
    if pyGet tmk zij 0 > pyGet tmni zij 0 then .ok .upd
    else if oykj - yij > commEps then .ok .upd
    else if |oykj - yij| ≤ commEps then
      if zij > ozkj then .ok .upd else .ok .leave
    else .ok .leave
  else if zij = -1 then .ok .upd  -- Entry 4
  else .error .unknownWinnerValue

/-- Entries 5 to 8: the sender thinks the receiver has the task. -/
def comm_act_sender_receiver (k i : Nat) (zij : Int) (tmk tmni : List ℚ) :
    Except CErr CAct :=
  if zij = (i : Int) then .ok .leave  -- Entry 5
  else if zij = (k : Int) then .ok .res  -- Entry 6
  else if zij > -1 then  -- Entry 7
    if pyGet tmk zij 0 > pyGet tmni zij 0 then .ok .res
    else .ok .leave
  else if zij = -1 then .ok .leave  -- Entry 8
  else .error .unknownWinnerValue

/-- Entries 9 to 13: the sender thinks some third agent has the task. -/
def comm_act_sender_other (k i : Nat) (ozkj zij : Int) (oykj yij : ℚ) (tmk tmni : List ℚ) :
    Except CErr CAct :=
  if zij = (i : Int) then  -- Entry 9
    if pyGet tmk ozkj 0 > pyGet tmni ozkj 0 then
      if oykj - yij > commEps then .ok .upd
      else if |oykj - yij| ≤ commEps then
        if zij > ozkj then .ok .upd else .ok .leave
      else .ok .leave
    else .ok .leave
  else if zij = (k : Int) then  -- Entry 10
    if pyGet tmk ozkj 0 > pyGet tmni ozkj 0 then .ok .upd
    else .ok .res
  else if zij = ozkj then  -- Entry 11
    if pyGet tmk ozkj 0 > pyGet tmni ozkj 0 then .ok .upd
    else .ok .leave
  else if zij > -1 then  -- Entry 12
    if pyGet tmk zij 0 > pyGet tmni zij 0 then
      if pyGet tmk ozkj 0 ≥ pyGet tmni ozkj 0 then .ok .upd
      else if pyGet tmk ozkj 0 < pyGet tmni ozkj 0 then .ok .res
      else .error .entry12Unknown
    else
      if pyGet tmk ozkj 0 > pyGet tmni ozkj 0 then
        if oykj - yij > commEps then .ok .upd
        else if |oykj - yij| ≤ commEps then
          if zij > ozkj then .ok .upd else .ok .leave
        else .ok .leave
      else .ok .leave
  else if zij = -1 then  -- Entry 13
    if pyGet tmk ozkj 0 > pyGet tmni ozkj 0 then .ok .upd
    else .ok .leave
  else .error .unknownWinnerValue

/-- Entries 14 to 17: the sender thinks no one has the task. -/
def comm_act_sender_none (k i : Nat) (zij : Int) (tmk tmni : List ℚ) :
    Except CErr CAct :=
  if zij = (i : Int) then .ok .leave  -- Entry 14
  else if zij = (k : Int) then .ok .upd  -- Entry 15
  else if zij > -1 then  -- Entry 16
    if pyGet tmk zij 0 > pyGet tmni zij 0 then .ok .upd
    else .ok .leave
  else if zij = -1 then .ok .leave  -- Entry 17
  else .error .unknownWinnerValue

/-- The 17-entry CBBA action table of `communicate` for sender `k`, receiver
`i`, evaluated on the scalar beliefs `ozkj = old_z[k][j]`,
`oykj = old_y[k][j]`, `zij = z[i][j]`, `yij = y[i][j]` and the timestamp rows
`tmk = time_mat[k]`, `tmni = time_mat_new[i]`.  The branch structure is the
exact if-elif chain of the source, split along its four commented sender-view
groups, including its four `Unknown winner value` raise sites and the
`Unknown condition for Entry 12` fallback. -/
def comm_entry_act (k i : Nat) (ozkj zij : Int) (oykj yij : ℚ) (tmk tmni : List ℚ) :
    Except CErr CAct :=
  if ozkj = (k : Int) then comm_act_sender_self k i ozkj zij oykj yij tmk tmni
  else if ozkj = (i : Int) then comm_act_sender_receiver k i zij tmk tmni
  else if ozkj > -1 then comm_act_sender_other k i ozkj zij oykj yij tmk tmni
  else if ozkj = -1 then comm_act_sender_none k i zij tmk tmni
  else .error .unknownWinnerValue

/-- One task `j` of the consensus table applied to the working copies
`(z, y)`; "Update" copies `(old_z[k][j], old_y[k][j])` into position
`(i, j)`, "Reset" writes `(-1, -1)` there, "Leave" keeps the state. -/
def comm_entry (old_z : List (List Int)) (old_y : List (List ℚ))
    (time_mat tmn : List (List ℚ)) (k i : Nat)
    (zy : List (List Int) × List (List ℚ)) (j : Nat) :
    Except CErr (List (List Int) × List (List ℚ)) :=
  let z := zy.1
  let y := zy.2
  let ozkj := (old_z.getD k []).getD j (-1)
  let oykj := (old_y.getD k []).getD j (-1)
  match comm_entry_act k i ozkj ((z.getD i []).getD j (-1)) oykj ((y.getD i []).getD j (-1))
      (time_mat.getD k []) (tmn.getD i []) with
  | .error e => .error e
  | .ok .upd => .ok (z.set i ((z.getD i []).set j ozkj), y.set i ((y.getD i []).set j oykj))
  | .ok .res => .ok (z.set i ((z.getD i []).set j (-1)), y.set i ((y.getD i []).set j (-1)))
  | .ok .leave => .ok zy

/-- The per-`(k, i)` timestamp propagation of `communicate`: raise receiver
`i`'s secondhand clocks to the sender's, then stamp `tmn[i][k] = iter_idx`. -/
def comm_stamp (num_agents : Nat) (time_mat tmn : List (List ℚ)) (k i : Nat)
    (iter_idx : ℚ) : List (List ℚ) :=
  let row := (List.range num_agents).foldl (fun row n =>
    if n ≠ i ∧ row.getD n 0 < (time_mat.getD k []).getD n 0 then
      row.set n ((time_mat.getD k []).getD n 0)
    else row) (tmn.getD i [])
  tmn.set i (row.set k iter_idx)

/-- The body of the receiver loop of `communicate` for sender `k`: when the
graph links `k` to receiver `i`, run the action table over every task and
then propagate timestamps; otherwise leave the accumulator alone. -/
def comm_pair (s : St) (time_mat : List (List ℚ)) (iter_idx : ℚ) (k : Nat)
    (acc : List (List Int) × List (List ℚ) × List (List ℚ)) (i : Nat) :
    Except CErr (List (List Int) × List (List ℚ) × List (List ℚ)) :=
  if (s.graph.getD k []).getD i false then
    match exceptFold (comm_entry s.winners_list s.winner_bid_list time_mat acc.2.2 k i)
        (List.range s.num_tasks) (acc.1, acc.2.1) with
    | .error e => .error e
    | .ok zy => .ok (zy.1, zy.2, comm_stamp s.num_agents time_mat acc.2.2 k i iter_idx)
  else
    .ok acc

/-- `CBBA.communicate`: one synchronous consensus round over the whole
communication graph; returns the updated state (winners and winning bids
overwritten) and the new timestamp matrix. -/
def communicate (s : St) (time_mat : List (List ℚ)) (iter_idx : ℚ) :
    Except CErr (St × List (List ℚ)) :=
  match exceptFold (fun acc k => exceptFold (comm_pair s time_mat iter_idx k)
      (List.range s.num_agents) acc) (List.range s.num_agents)
      (s.winners_list, s.winner_bid_list, time_mat) with
  | .error e => .error e
  | .ok r => .ok ({ s with winners_list := r.1, winner_bid_list := r.2.1 }, r.2.2)

/-- Outcome of the convergence check at the bottom of the `solve` loop. -/
inductive LoopDecision where
  | converged
  | commFault
  | cont
deriving DecidableEq, Repr

/-- The convergence check of `solve`: the `if (iter_idx - iter_prev) >
num_agents` / `elif (iter_idx - iter_prev) > 2*num_agents` chain;
`commFault` is the branch that prints "Algorithm did not converge due to
communication trouble". -/
def convergence_check (iter_idx iter_prev : Int) (num_agents : Nat) : LoopDecision :=
  if iter_idx - iter_prev > (num_agents : Int) then .converged
  else if iter_idx - iter_prev > 2 * (num_agents : Int) then .commFault
  else .cont

/-- Body of the per-round `for idx_agent in range(self.num_agents)` loop of
`solve`: run `bundle` for one agent and refresh `iter_prev` when it placed a
new bid. -/
def agents_round (m : MathFns) (cfg : Config) (iter_idx : Int) (acc : St × Int)
    (idx_agent : Nat) : Except CErr (St × Int) := do
  let (s, ip) := acc
  let (s, new_bid_flag) ← bundle m cfg s idx_agent
  return (s, if new_bid_flag then iter_idx else ip)

/-- The `while not done_flag` loop of `solve`, with explicit fuel (`.ok none`
on exhaustion).  The boolean paired with the final state records whether the
non-convergence branch was taken (the source reports it with a print). -/
def solve_loop (m : MathFns) (cfg : Config) (fuel : Nat) (s : St)
    (time_mat : List (List ℚ)) (iter_idx iter_prev : Int) :
    Except CErr (Option (St × Bool)) :=
  match fuel with
  | 0 => .ok none
  | fuel + 1 => do
    let (s, time_mat) ← communicate s time_mat (iter_idx : ℚ)
    let (s, iter_prev) ← exceptFold (agents_round m cfg iter_idx)
      (List.range s.num_agents) (s, iter_prev)
    match convergence_check iter_idx iter_prev s.num_agents with
    | .converged => .ok (some (s, false))
    | .commFault => .ok (some (s, true))
    | .cont => solve_loop m cfg fuel s time_mat (iter_idx + 1) iter_prev

/-- The per-agent post-processing loop of `solve` that maps internal bundle
and path indices to stable `task_id`s, with its two in-loop breaks. -/
def map_ids (tasks : List Task) (max_depth : Nat) (b p : List Int) : List Int × List Int :=
  let r := (List.range max_depth).foldl (fun (acc : List Int × List Int × Bool) mIdx =>
    let (b, p, stop) := acc
    if stop then acc
    else if b.getD mIdx (-1) == -1 then (b, p, true)
    else
      let b' := b.set mIdx (pyGet tasks (b.getD mIdx (-1)) dTask).task_id
      if p.getD mIdx (-1) == -1 then (b', p, true)
      else (b', p.set mIdx (pyGet tasks (p.getD mIdx (-1)) dTask).task_id, false))
    (b, p, false)
  (r.1, r.2.1)

/-- `CBBA.solve`: initialize via `settings`, run the consensus/bundle loop to
convergence, translate task indices to ids and strip the `-1` sentinels.
`_residual` is the state the Python object carries from before the call,
which `settings` overwrites wholesale; `fuel` bounds the main loop (`.ok
none` when exhausted). -/
def solve (m : MathFns) (cfg : Config) (_residual : St) (AgentList : List Agent)
    (TaskList : List Task) (w : WorldInfo) (max_depth : Nat) (time_window_flag : Bool)
    (fuel : Nat) : Except CErr (Option (List (List Int) × List (List ℚ))) := do
  let s := settings AgentList TaskList w max_depth time_window_flag
  let time_mat := List.replicate s.num_agents (List.replicate s.num_agents (0 : ℚ))
  match ← solve_loop m cfg fuel s time_mat 1 0 with
  | none => return none
  | some (s, _) =>
    let pairs := (List.range s.num_agents).map fun n =>
      map_ids s.TaskList s.max_depth (s.bundle_list.getD n []) (s.path_list.getD n [])
    let path_stripped := (pairs.map (·.2)).map (List.filter (fun a => a != -1))
    let times_stripped := s.times_list.map (List.filter (fun a => a != -1))
    return some (path_stripped, times_stripped)

/-! ## Concrete instances for the executable runs -/

/-- Instantiation of the float functions for the concrete runs below.  Every
such run places all agents and tasks at the same point with zero discount, so
`sqrt` is only ever applied to `0` and `exp` only to `0`, where the values
`0` and `1` agree with `math.sqrt` and `math.exp`. -/
def mathAt0 : MathFns := ⟨fun _ => 0, fun _ => 1⟩

/-- A one-agent-type, one-task-type configuration: type 0 = quad, compatible
with task type 0; type 1 = car. -/
def cfgQC : Config := ⟨[[1]], 0, 1⟩

/-- Degenerate world bounds (never read by the solver core). -/
def wTriv : WorldInfo := ⟨(0, 0), (0, 0), (0, 0)⟩

/-- A residual pre-call state (the Python object's fields before `solve`
re-runs `settings`). -/
def sResidual : St := settings [] [] wTriv 0 true

/-- Quad agent with id 0 at the origin, unit velocity, available at 0. -/
def agent0 : Agent := ⟨0, 0, 0, 0, 0, 1, 0⟩

/-- Quad agent with id 1 at the origin. -/
def agent1 : Agent := ⟨1, 0, 0, 0, 0, 1, 0⟩

/-- Quad agent with id 2 at the origin. -/
def agent2 : Agent := ⟨2, 0, 0, 0, 0, 1, 0⟩

/-- Quad agent whose `agent_id` (5) differs from any list position it is
placed at. -/
def agent5 : Agent := ⟨5, 0, 0, 0, 0, 1, 0⟩

/-- Task with id 0 at the origin, window [0, 100], zero duration, value 1,
zero discount. -/
def task0 : Task := ⟨0, 0, 0, 0, 0, 0, 100, 0, 1, 0⟩

/-- Travel time as the specification states it: Euclidean distance between
two 3D points divided by the agent's `nom_velocity`. -/
def travel_time (m : MathFns) (x1 y1 z1 x2 y2 z2 v : ℚ) : ℚ :=
  m.sqrt ((x1 - x2) ^ 2 + (y1 - y2) ^ 2 + (z1 - z2) ^ 2) / v

/-- `min_start` in the words of the claim: for the first position, the later
of the task's window opening and arrival from the agent's start; otherwise
the later of the window opening and departure after the previous task. -/
def min_start_claim (m : MathFns) (ag : Agent) (tc : Task) (prev : Option (Task × ℚ)) : ℚ :=
  match prev with
  | none => max tc.start_time
      (ag.availability + travel_time m ag.x ag.y ag.z tc.x tc.y tc.z ag.nom_velocity)
  | some (tp, time_prev) => max tc.start_time
      (time_prev + tp.duration + travel_time m tp.x tp.y tp.z tc.x tc.y tc.z ag.nom_velocity)

/-- `max_start` in the words of the claim: the window close at the end of the
path, otherwise the earlier of the window close and the latest departure that
still reaches the next task. -/
def max_start_claim (m : MathFns) (ag : Agent) (tc : Task) (next : Option (Task × ℚ)) : ℚ :=
  match next with
  | none => tc.end_time
  | some (tn, time_next) => min tc.end_time
      (time_next - tc.duration - travel_time m tn.x tn.y tn.z tc.x tc.y tc.z ag.nom_velocity)

/-- Task with id 0 and reward value 10 (origin, window [0,100], duration 0,
discount 0). -/
def task10 : Task := ⟨0, 0, 0, 0, 0, 0, 100, 0, 10, 0⟩

/-- Task with id 1 and reward value 1. -/
def task1v : Task := ⟨1, 0, 0, 0, 0, 0, 100, 0, 1, 0⟩

/-- State for the C6 counterexample: the single agent sits at position 0 but
carries `agent_id = 5`, and believes agent 3 owns task 0 with winning bid 10
(a belief another agent's consensus message can install). -/
def s6 : St := { settings [agent5] [task10, task1v] wTriv 1 true with
  winners_list := [[3, -1]], winner_bid_list := [[10, -1]] }

/-- The eligibility mask in the words of the claim, comparing the agent's
position `n` — not its `agent_id` — against the believed winner in the
tie case. -/
def bid_mask_claim (n : Nat) (bid wbid : List ℚ) (winners : List Int) (j : Nat) : Bool :=
  (bid.getD j (-1) - wbid.getD j (-1) > bundleEps) ||
    (|bid.getD j (-1) - wbid.getD j (-1)| ≤ bundleEps && ((n : Int) < winners.getD j (-1)))

/-- State for the C6 witness: fresh beliefs, bid row [10, 1] already
computed. -/
def sW : St := { settings [agent5] [task10, task1v] wTriv 1 true with bid_list := [[10, 1]] }

/-- A fixed-length row of the assignment state: the non-sentinel entries
`pre` form a prefix (all nonnegative), padded to length `D` with `-1`
sentinels. -/
def RowClean (D : Nat) (row pre : List Int) : Prop :=
  row = pre ++ List.replicate (D - pre.length) (-1) ∧ pre.length ≤ D ∧ ∀ b ∈ pre, 0 ≤ b

/-- Well-formedness of agent `n`'s slice of the assignment state: the bundle
and path rows are clean `max_depth`-rows whose non-sentinel prefixes are
permutations of each other, the path carries no duplicates, times and scores
have row length `max_depth`, and the per-agent lists are long enough to hold
row `n`. -/
def AgentWf (s : St) (n : Nat) : Prop :=
  n < s.bundle_list.length ∧ n < s.path_list.length ∧ n < s.times_list.length ∧
  n < s.scores_list.length ∧ n < s.bid_list.length ∧
  ∃ bpre ppre : List Int,
    RowClean s.max_depth (s.bundle_list.getD n []) bpre ∧
    RowClean s.max_depth (s.path_list.getD n []) ppre ∧
    (s.times_list.getD n []).length = s.max_depth ∧
    (s.scores_list.getD n []).length = s.max_depth ∧
    List.Perm bpre ppre ∧ ppre.Nodup

/-- The claim's invariant: the non-sentinel task indices of `path[n]` are
pairwise distinct, and the multiset of non-sentinel entries of `bundle[n]`
equals that of `path[n]`. -/
def PathInv (s : St) (n : Nat) : Prop :=
  ((s.path_list.getD n []).filter (fun a => a != -1)).Nodup ∧
  List.Perm ((s.bundle_list.getD n []).filter (fun a => a != -1))
    ((s.path_list.getD n []).filter (fun a => a != -1))

/-- Preservation of the scalar fields and list lengths of the state across
the bundle phase (the mutating operations are all `List.set`). -/
def StShape (s s' : St) : Prop :=
  s'.num_agents = s.num_agents ∧ s'.num_tasks = s.num_tasks ∧ s'.max_depth = s.max_depth ∧
  s'.time_window_flag = s.time_window_flag ∧ s'.agent_index_list = s.agent_index_list ∧
  s'.AgentList = s.AgentList ∧ s'.TaskList = s.TaskList ∧ s'.graph = s.graph ∧
  s'.bundle_list.length = s.bundle_list.length ∧ s'.path_list.length = s.path_list.length ∧
  s'.times_list.length = s.times_list.length ∧ s'.scores_list.length = s.scores_list.length ∧
  s'.bid_list.length = s.bid_list.length

/-- The mid-loop shape of agent `n`'s rows inside `bundle_remove`: positions
`i0 ≤ idx < c` of the bundle row have been cleared, their tasks erased from
the path, times and scores rows; positions `< i0` and `≥ c` still carry the
original prefix `bpre`. -/
def RemoveMid (s : St) (n : Nat) (bpre : List Int) (i0 c : Nat) : Prop :=
  i0 ≤ c ∧ c ≤ bpre.length ∧ bpre.length ≤ s.max_depth ∧
  (∀ b ∈ bpre, 0 ≤ b) ∧ bpre.Nodup ∧
  s.bundle_list.getD n [] = bpre.take i0 ++ List.replicate (c - i0) (-1) ++ bpre.drop c
    ++ List.replicate (s.max_depth - bpre.length) (-1) ∧
  (∃ ppre, RowClean s.max_depth (s.path_list.getD n []) ppre ∧
    List.Perm (bpre.take i0 ++ bpre.drop c) ppre ∧ ppre.Nodup) ∧
  (s.times_list.getD n []).length = s.max_depth ∧
  (s.scores_list.getD n []).length = s.max_depth ∧
  n < s.bundle_list.length ∧ n < s.path_list.length ∧ n < s.times_list.length ∧
  n < s.scores_list.length ∧ n < s.bid_list.length

/-- Invariant carried through `compute_bid`'s task loop: only the `bid_list`
field of the threaded state changes; the best-index table and the agent's
bid row have one slot per task; and every published positive bid records an
insertion index inside `[0, pathLen]` for a task absent from the path
prefix. -/
def BidProp (s0 : St) (n pl : Nat) (acc : List Int × List ℚ × List (List Bool) × St) : Prop :=
  acc.2.2.2 = { s0 with bid_list := acc.2.2.2.bid_list } ∧
  acc.2.2.2.bid_list.length = s0.bid_list.length ∧
  acc.1.length = s0.num_tasks ∧
  (acc.2.2.2.bid_list.getD n []).length = s0.num_tasks ∧
  ∀ j : Nat, 0 < (acc.2.2.2.bid_list.getD n []).getD j (-1) →
    0 ≤ acc.1.getD j (-1) ∧ acc.1.getD j (-1) ≤ (pl : Int) ∧
    ((s0.path_list.getD n []).take pl).countP (· == (j : Int)) = 0

/-- A well-formed one-agent state holding task 0 in bundle and path while the
believed winner of task 0 is agent 7 — `bundle_remove` must release it. -/
def sR : St := { settings [agent0] [task10] wTriv 1 true with
  bundle_list := [[0]], path_list := [[0]], times_list := [[0]], scores_list := [[10]],
  winners_list := [[7]], winner_bid_list := [[10]] }

/-! ## C9: determinism -/

/-- C9: `solve` is deterministic — its output is a function of the call
arguments `(AgentList, TaskList, WorldInfo, max_depth, time_window_flag)`
alone (plus the ambient configuration, float model and loop fuel): in
particular it is independent of the residual object state left over from any
earlier call, because `settings` rebuilds every field the solver reads.  Two
calls with identical inputs therefore produce identical outputs. -/
theorem C9_solve_deterministic (m : MathFns) (cfg : Config) (r r' : St)
    (A : List Agent) (T : List Task) (w : WorldInfo) (d : Nat) (f : Bool) (fuel : Nat) :
    solve m cfg r A T w d f fuel = solve m cfg r' A T w d f fuel := rfl

/-! ## C2: the non-convergence branch -/

theorem convergence_check_ne_commFault (a b : Int) (N : Nat) :
    convergence_check a b N ≠ .commFault := by
  unfold convergence_check
  split_ifs with h1 h2
  · simp
  · exfalso; omega
  · simp

theorem solve_loop_no_report (m : MathFns) (cfg : Config) : ∀ (fuel : Nat) (s : St)
    (tm : List (List ℚ)) (ii ip : Int) (s' : St),
    solve_loop m cfg fuel s tm ii ip ≠ .ok (some (s', true)) := by
  intro fuel
  induction fuel with
  | zero => intro s tm ii ip s'; simp [solve_loop]
  | succ n ih =>
    intro s tm ii ip s'
    rw [solve_loop]
    simp only [Bind.bind, Except.bind]
    cases hc : communicate s tm (ii : ℚ) with
    | error e => simp
    | ok p =>
      cases hf : exceptFold (agents_round m cfg ii) (List.range p.1.num_agents) (p.1, ip) with
      | error e => simp [hf]
      | ok q =>
        have hnc := convergence_check_ne_commFault ii q.2 q.1.num_agents
        cases hcc : convergence_check ii q.2 q.1.num_agents with
        | converged => simp [hf, hcc]
        | commFault => exact absurd hcc hnc
        | cont => simp only [hf, hcc]; exact ih _ _ _ _ _

/-- C2 (amended): the communication-fault branch of the convergence check is
dead code — since `x > 2N` implies `x > N` for a nonnegative agent count, the
`elif` can never fire, so `solve` never reports non-convergence; whenever
`iter_idx - iter_prev` exceeds the agent count (in particular whenever it
exceeds twice the agent count) the solver silently declares convergence and
stops with its current assignment. -/
theorem C2_commFault_branch_dead (iter_idx iter_prev : Int) (N : Nat) (m : MathFns)
    (cfg : Config) (fuel : Nat) (s : St) (tm : List (List ℚ)) (ii ip : Int) (s' : St) :
    convergence_check iter_idx iter_prev N ≠ .commFault ∧
    (iter_idx - iter_prev > (N : Int) → convergence_check iter_idx iter_prev N = .converged) ∧
    solve_loop m cfg fuel s tm ii ip ≠ .ok (some (s', true)) := by
  refine ⟨convergence_check_ne_commFault _ _ _, fun h => ?_, solve_loop_no_report m cfg _ _ _ _ _ _⟩
  unfold convergence_check
  rw [if_pos h]

/-- Witness for C2_commFault_branch_dead at `iter_idx = 4, iter_prev = 0,
N = 1` and a concrete loop configuration. -/
theorem C2_commFault_branch_dead_witness :
    convergence_check 4 0 1 ≠ .commFault ∧ convergence_check 4 0 1 = .converged ∧
    solve_loop mathAt0 cfgQC 0 sResidual [] 1 0 ≠ .ok (some (sResidual, true)) :=
  ⟨(C2_commFault_branch_dead 4 0 1 mathAt0 cfgQC 0 sResidual [] 1 0 sResidual).1,
   (C2_commFault_branch_dead 4 0 1 mathAt0 cfgQC 0 sResidual [] 1 0 sResidual).2.1 (by decide),
   (C2_commFault_branch_dead 4 0 1 mathAt0 cfgQC 0 sResidual [] 1 0 sResidual).2.2⟩

/-- C2 (counterexample): a full run of the solver loop with zero agents.  At
its only convergence check `iter_idx - iter_prev = 1 - 0` exceeds
`2 * num_agents = 0`, yet the run stops by the silent `converged` branch with
the non-convergence report flag false — the claim's "declares non-convergence
when iter_idx − iter_prev exceeds 2N" is false on the code. -/
theorem C2_counterexample :
    ((1 : Int) - 0 > 2 * ((0 : Nat) : Int)) ∧
    convergence_check 1 0 0 ≠ .commFault ∧
    (solve_loop mathAt0 cfgQC 3 (settings [] [] wTriv 1 true) [] 1 0).map (Option.map Prod.snd)
      = .ok (some false) := by
  refine ⟨by decide, by decide, by with_unfolding_all rfl⟩

/-! ## C7: the unknown-agent-type error -/

/-- C7: the bid scorer raises `UnknownAgentType` exactly when the agent's
type is outside the known set — it fails iff `agent_type` is neither the
"quad" nor the "car" index, and for quad/car agents it always returns
normally. -/
theorem C7_unknownAgentType_iff (m : MathFns) (cfg : Config) (s : St) (idx_agent : Nat)
    (tc : Task) (prev next : Option (Task × ℚ)) :
    (scoring_compute_score m cfg s idx_agent tc prev next = .error .unknownAgentType ↔
      ¬((s.AgentList.getD idx_agent dAgent).agent_type = cfg.quadIdx ∨
        (s.AgentList.getD idx_agent dAgent).agent_type = cfg.carIdx)) ∧
    (((s.AgentList.getD idx_agent dAgent).agent_type = cfg.quadIdx ∨
      (s.AgentList.getD idx_agent dAgent).agent_type = cfg.carIdx) →
      ∃ v, scoring_compute_score m cfg s idx_agent tc prev next = .ok v) := by
  by_cases h : (s.AgentList.getD idx_agent dAgent).agent_type = cfg.quadIdx ∨
      (s.AgentList.getD idx_agent dAgent).agent_type = cfg.carIdx
  · refine ⟨?_, fun _ => ?_⟩
    · unfold scoring_compute_score
      rw [if_pos h]
      exact ⟨fun heq => Except.noConfusion heq, fun hn => absurd h hn⟩
    · unfold scoring_compute_score
      rw [if_pos h]
      exact ⟨_, rfl⟩
  · refine ⟨?_, fun hh => absurd hh h⟩
    unfold scoring_compute_score
    rw [if_neg h]
    exact ⟨fun _ => h, fun _ => rfl⟩

/-- Witness for C7_unknownAgentType_iff: a quad agent (type 0) never raises. -/
theorem C7_unknownAgentType_iff_witness :
    ∃ v, scoring_compute_score mathAt0 cfgQC (settings [agent0] [task0] wTriv 1 true) 0 task0
      none none = .ok v :=
  (C7_unknownAgentType_iff mathAt0 cfgQC (settings [agent0] [task0] wTriv 1 true) 0 task0
    none none).2 (Or.inl (by decide))

/-! ## C5: the insertion time window -/

/-- C5: for every quad or car agent, `scoring_compute_score` returns exactly
the claimed `min_start` (p = 0 case via `prev = none`) and `max_start`
(end-of-path case via `next = none`), with travel time the Euclidean
distance over `nom_velocity`. -/
theorem C5_score_insertion_window (m : MathFns) (cfg : Config) (s : St) (idx_agent : Nat)
    (tc : Task) (prev next : Option (Task × ℚ))
    (h : (s.AgentList.getD idx_agent dAgent).agent_type = cfg.quadIdx ∨
      (s.AgentList.getD idx_agent dAgent).agent_type = cfg.carIdx) :
    ∃ score, scoring_compute_score m cfg s idx_agent tc prev next =
      .ok (score, min_start_claim m (s.AgentList.getD idx_agent dAgent) tc prev,
        max_start_claim m (s.AgentList.getD idx_agent dAgent) tc next) := by
  unfold scoring_compute_score min_start_claim max_start_claim travel_time
  rw [if_pos h]
  cases prev <;> cases next <;> exact ⟨_, rfl⟩

/-- Witness for C5_score_insertion_window: quad agent, first and last
position. -/
theorem C5_score_insertion_window_witness :
    ∃ score, scoring_compute_score mathAt0 cfgQC (settings [agent0] [task0] wTriv 1 true) 0 task0
      none none = .ok (score,
        min_start_claim mathAt0 ((settings [agent0] [task0] wTriv 1 true).AgentList.getD 0 dAgent)
          task0 none,
        max_start_claim mathAt0 ((settings [agent0] [task0] wTriv 1 true).AgentList.getD 0 dAgent)
          task0 none) :=
  C5_score_insertion_window mathAt0 cfgQC (settings [agent0] [task0] wTriv 1 true) 0 task0
    none none (Or.inl (by decide))

/-! ## C3: zero tasks -/

/-- C3: the claimed behavior (0 tasks, 3 agents, positive max_depth returns
normally with empty paths in one round) fails on the code: in the very first
`bundle_add` the selection step computes `array_max.argmax()` on an array of
length `num_tasks = 0`, which numpy rejects (`ValueError`), so `solve` raises
instead of returning. -/
theorem C3_zero_tasks_raises :
    solve mathAt0 cfgQC sResidual [agent0, agent1, agent2] [] wTriv 1 true 5
      = .error .emptyArgmax := by with_unfolding_all rfl

/-! ## C1: one task, two owners -/

/-- C1: a concrete run on which `solve` returns but a task id appears in two
agents' `path_list`.  Both agents carry `agent_id = 0` (nothing validates
ids); the bundle phase brands winners with `agent_id` while the consensus
table compares sender/receiver by list position, so the conflict between the
two agents is never detected and task id 0 ends up in both returned paths. -/
theorem C1_duplicate_ids_double_assignment :
    solve mathAt0 cfgQC sResidual [agent0, agent0] [task0] wTriv 1 true 10
      = .ok (some ([[0], [0]], [[0], [0]])) ∧
    (0 : Int) ∈ (([[0], [0]] : List (List Int)).getD 0 []) ∧
    (0 : Int) ∈ (([[0], [0]] : List (List Int)).getD 1 []) :=
  ⟨by with_unfolding_all rfl, by decide, by decide⟩

/-! ## C4 and C6 counterexamples: agent id versus list position -/

/-- C4 (counterexample): `bundle_add` for the agent at position `n = 0` whose
`agent_id` is 5 records the winner of the added task as 5, not as the agent
index 0 — the claimed "sets winners[n][j*] to the agent index n" (and with it
the claimed indifference to `agent_id ≠ n`) is false on the code. -/
theorem C4_counterexample :
    (bundle_add mathAt0 cfgQC (settings [agent5] [task0] wTriv 1 true) 0).map
      (fun r => r.1.winners_list) = .ok [[5]] ∧ (5 : Int) ≠ ((0 : Nat) : Int) :=
  ⟨by with_unfolding_all rfl, by decide⟩

/-! ## C10: the Entry 12 fallback is unreachable -/

theorem comm_act_sender_self_ne_entry12 (k i : Nat) (ozkj zij : Int) (oykj yij : ℚ)
    (tmk tmni : List ℚ) :
    comm_act_sender_self k i ozkj zij oykj yij tmk tmni ≠ .error .entry12Unknown := by
  unfold comm_act_sender_self
  split_ifs <;> simp

theorem comm_act_sender_receiver_ne_entry12 (k i : Nat) (zij : Int) (tmk tmni : List ℚ) :
    comm_act_sender_receiver k i zij tmk tmni ≠ .error .entry12Unknown := by
  unfold comm_act_sender_receiver
  split_ifs <;> simp

theorem comm_act_sender_other_ne_entry12 (k i : Nat) (ozkj zij : Int) (oykj yij : ℚ)
    (tmk tmni : List ℚ) :
    comm_act_sender_other k i ozkj zij oykj yij tmk tmni ≠ .error .entry12Unknown := by
  unfold comm_act_sender_other
  split_ifs <;> try simp
  all_goals linarith

theorem comm_act_sender_none_ne_entry12 (k i : Nat) (zij : Int) (tmk tmni : List ℚ) :
    comm_act_sender_none k i zij tmk tmni ≠ .error .entry12Unknown := by
  unfold comm_act_sender_none
  split_ifs <;> simp

theorem comm_entry_act_ne_entry12 (k i : Nat) (ozkj zij : Int) (oykj yij : ℚ)
    (tmk tmni : List ℚ) :
    comm_entry_act k i ozkj zij oykj yij tmk tmni ≠ .error .entry12Unknown := by
  unfold comm_entry_act
  split_ifs
  · exact comm_act_sender_self_ne_entry12 k i ozkj zij oykj yij tmk tmni
  · exact comm_act_sender_receiver_ne_entry12 k i zij tmk tmni
  · exact comm_act_sender_other_ne_entry12 k i ozkj zij oykj yij tmk tmni
  · exact comm_act_sender_none_ne_entry12 k i zij tmk tmni
  · simp

theorem comm_entry_ne_entry12 (old_z : List (List Int)) (old_y : List (List ℚ))
    (time_mat tmn : List (List ℚ)) (k i : Nat)
    (zy : List (List Int) × List (List ℚ)) (j : Nat) :
    comm_entry old_z old_y time_mat tmn k i zy j ≠ .error .entry12Unknown := by
  simp only [comm_entry]
  have h := comm_entry_act_ne_entry12 k i ((old_z.getD k []).getD j (-1))
    ((zy.1.getD i []).getD j (-1)) ((old_y.getD k []).getD j (-1))
    ((zy.2.getD i []).getD j (-1)) (time_mat.getD k []) (tmn.getD i [])
  cases hact : comm_entry_act k i ((old_z.getD k []).getD j (-1))
      ((zy.1.getD i []).getD j (-1)) ((old_y.getD k []).getD j (-1))
      ((zy.2.getD i []).getD j (-1)) (time_mat.getD k []) (tmn.getD i []) with
  | error e =>
    simp only [hact]
    intro hcontra
    exact h (by rw [hact]; exact congrArg Except.error (by injection hcontra))
  | ok a => cases a <;> simp [hact]

theorem exceptFold_ne_error {α β : Type} {f : α → β → Except CErr α} {bad : CErr}
    (hf : ∀ a b, f a b ≠ .error bad) : ∀ (l : List β) (a : α), exceptFold f l a ≠ .error bad := by
  intro l
  induction l with
  | nil => intro a; simp [exceptFold]
  | cons b bs ih =>
    intro a
    rw [exceptFold]
    cases h : f a b with
    | error e =>
      intro hcontra
      exact hf a b (by rw [h]; exact congrArg Except.error (by injection hcontra))
    | ok a' => exact ih a'

theorem comm_pair_ne_entry12 (s : St) (time_mat : List (List ℚ)) (iter_idx : ℚ) (k : Nat)
    (acc : List (List Int) × List (List ℚ) × List (List ℚ)) (i : Nat) :
    comm_pair s time_mat iter_idx k acc i ≠ .error .entry12Unknown := by
  unfold comm_pair
  split_ifs with hg
  · cases hin : exceptFold (comm_entry s.winners_list s.winner_bid_list time_mat acc.2.2 k i)
        (List.range s.num_tasks) (acc.1, acc.2.1) with
    | error e =>
      intro hcontra
      have he : e = CErr.entry12Unknown := by injection hcontra
      exact exceptFold_ne_error (fun a b => comm_entry_ne_entry12 _ _ _ _ _ _ a b) _ _
        (by rw [hin, he])
    | ok q => simp
  · simp

/-- C10: for all (rational-valued) timestamp matrices the two Entry 12 guards
`time_mat[k][m] ≥ time_mat_new[i][m]` and `time_mat[k][m] < time_mat_new[i][m]`
are exhaustive, so `communicate` can never raise the `Unknown condition for
Entry 12` exception, whatever state it is applied to. -/
theorem C10_entry12_unreachable (s : St) (time_mat : List (List ℚ)) (iter_idx : ℚ) :
    communicate s time_mat iter_idx ≠ .error .entry12Unknown := by
  unfold communicate
  cases hF : exceptFold (fun acc k => exceptFold (comm_pair s time_mat iter_idx k)
      (List.range s.num_agents) acc) (List.range s.num_agents)
      (s.winners_list, s.winner_bid_list, time_mat) with
  | error e =>
    intro hcontra
    have he : e = CErr.entry12Unknown := by injection hcontra
    refine exceptFold_ne_error (fun a kk => ?_) _ _ (by rw [hF, he])
    exact exceptFold_ne_error (fun a' ii => comm_pair_ne_entry12 s time_mat iter_idx kk a' ii) _ _
  | ok q => simp

/-! ## C6: the selection step of bundle_add -/

theorem getD_mem_of_lt {α : Type} : ∀ (l : List α) (n : Nat) (d : α), n < l.length → l.getD n d ∈ l := by
  intro l
  induction l with
  | nil => intro n d h; simp at h
  | cons a as ih =>
    intro n d h
    cases n with
    | zero => exact List.mem_cons_self _ _
    | succ n => exact List.mem_cons_of_mem _ (ih n d (by simpa using h))

theorem getD_map_range {α : Type} (f : Nat → α) (d : α) (M j : Nat) (h : j < M) :
    (((List.range M).map f).getD j d) = f j := by
  rw [List.getD_eq_getElem?_getD, List.getElem?_map, List.getElem?_range h]
  rfl

theorem foldl_max_le (xs : List ℚ) : ∀ (a : ℚ), a ≤ xs.foldl max a ∧
    ∀ x ∈ xs, x ≤ xs.foldl max a := by
  induction xs with
  | nil => intro a; exact ⟨le_refl a, by simp⟩
  | cons x xs ih =>
    intro a
    refine ⟨le_trans (le_max_left a x) (ih (max a x)).1, fun y hy => ?_⟩
    rcases List.mem_cons.mp hy with rfl | hy
    · exact le_trans (le_max_right a y) (ih (max a y)).1
    · exact (ih (max a x)).2 y hy

theorem pyMax_ge (l : List ℚ) (x : ℚ) (hx : x ∈ l) : x ≤ pyMax l := by
  cases l with
  | nil => cases hx
  | cons a xs =>
    rcases List.mem_cons.mp hx with rfl | hx
    · exact (foldl_max_le xs x).1
    · exact (foldl_max_le xs a).2 x hx

theorem argmax_fold_spec : ∀ (xs : List ℚ) (cur bi : Nat) (bv : ℚ),
    (xs.foldl (fun (acc : Nat × Nat × ℚ) v =>
        if acc.2.2 < v then (acc.1 + 1, acc.1, v) else (acc.1 + 1, acc.2.1, acc.2.2))
      (cur, bi, bv)).2.2 = xs.foldl max bv ∧
    ((xs.foldl (fun (acc : Nat × Nat × ℚ) v =>
        if acc.2.2 < v then (acc.1 + 1, acc.1, v) else (acc.1 + 1, acc.2.1, acc.2.2))
      (cur, bi, bv)).2.1 = bi ∧
     (xs.foldl (fun (acc : Nat × Nat × ℚ) v =>
        if acc.2.2 < v then (acc.1 + 1, acc.1, v) else (acc.1 + 1, acc.2.1, acc.2.2))
      (cur, bi, bv)).2.2 = bv ∨
     ∃ d, d < xs.length ∧
      (xs.foldl (fun (acc : Nat × Nat × ℚ) v =>
        if acc.2.2 < v then (acc.1 + 1, acc.1, v) else (acc.1 + 1, acc.2.1, acc.2.2))
        (cur, bi, bv)).2.1 = cur + d ∧
      xs.getD d 0 =
      (xs.foldl (fun (acc : Nat × Nat × ℚ) v =>
        if acc.2.2 < v then (acc.1 + 1, acc.1, v) else (acc.1 + 1, acc.2.1, acc.2.2))
        (cur, bi, bv)).2.2) := by
  intro xs
  induction xs with
  | nil => intro cur bi bv; exact ⟨rfl, Or.inl ⟨rfl, rfl⟩⟩
  | cons x xs ih =>
    intro cur bi bv
    simp only [List.foldl_cons]
    by_cases hlt : bv < x
    · rw [if_pos hlt]
      have h := ih (cur + 1) cur x
      refine ⟨by rw [h.1]; simp [max_eq_right (le_of_lt hlt)], ?_⟩
      rcases h.2 with ⟨h1, h2⟩ | ⟨d, hd, h1, h2⟩
      · exact Or.inr ⟨0, by simp, by rw [h1]; omega, by simpa using h2.symm⟩
      · exact Or.inr ⟨d + 1, by simpa using hd, by rw [h1]; omega, by simpa using h2⟩
    · rw [if_neg hlt]
      have h := ih (cur + 1) bi bv
      refine ⟨by rw [h.1]; rw [max_eq_left (le_of_not_lt hlt)], ?_⟩
      rcases h.2 with ⟨h1, h2⟩ | ⟨d, hd, h1, h2⟩
      · exact Or.inl ⟨h1, h2⟩
      · exact Or.inr ⟨d + 1, by simpa using hd, by rw [h1]; omega, by simpa using h2⟩

theorem argmaxIdx_spec (l : List ℚ) (i : Nat) (h : argmaxIdx l = some i) :
    i < l.length ∧ l.getD i 0 = pyMax l := by
  cases l with
  | nil => simp [argmaxIdx] at h
  | cons x xs =>
    simp only [argmaxIdx, Option.some.injEq] at h
    have hs := argmax_fold_spec xs 1 0 x
    rcases hs.2 with ⟨h1, _h2⟩ | ⟨d, hd, h1, _h2⟩
    · subst h; rw [h1]
      exact ⟨by simp, (hs.1.symm.trans _h2).symm⟩
    · subst h
      rw [h1]
      constructor
      · simp; omega
      · have : (x :: xs).getD (1 + d) 0 = xs.getD d 0 := by
          have : 1 + d = d + 1 := by omega
          rw [this]; rfl
        rw [this, _h2, hs.1]; rfl

theorem tie_break_fold_spec (tasks : List Task) :
    ∀ (vs : List Nat) (e : ℚ) (b : Nat),
    (let r := vs.foldl (fun (acc : ℚ × Nat) i =>
        if (tasks.getD i dTask).start_time < acc.1 then ((tasks.getD i dTask).start_time, i)
        else acc) (e, b)
     (r = (e, b) ∧ ∀ j ∈ vs, e ≤ (tasks.getD j dTask).start_time) ∨
     (r.2 ∈ vs ∧ r.1 = (tasks.getD r.2 dTask).start_time ∧ r.1 ≤ e ∧
       ∀ j ∈ vs, r.1 ≤ (tasks.getD j dTask).start_time)) := by
  intro vs
  induction vs with
  | nil => intro e b; exact Or.inl ⟨rfl, by simp⟩
  | cons v vs ih =>
    intro e b
    simp only [List.foldl_cons]
    by_cases hv : (tasks.getD v dTask).start_time < e
    · rw [if_pos hv]
      rcases ih (tasks.getD v dTask).start_time v with ⟨h1, h2⟩ | ⟨h1, h2, h3, h4⟩
      · refine Or.inr ⟨by rw [h1]; exact List.mem_cons_self _ _, by rw [h1], by rw [h1]; exact le_of_lt hv, ?_⟩
        intro j hj
        rcases List.mem_cons.mp hj with rfl | hj
        · rw [h1]
        · rw [h1]; exact h2 j hj
      · refine Or.inr ⟨List.mem_cons_of_mem _ h1, h2, le_trans h3 (le_of_lt hv), ?_⟩
        intro j hj
        rcases List.mem_cons.mp hj with rfl | hj
        · exact h3
        · exact h4 j hj
    · rw [if_neg hv]
      rcases ih e b with ⟨h1, h2⟩ | ⟨h1, h2, h3, h4⟩
      · refine Or.inl ⟨h1, ?_⟩
        intro j hj
        rcases List.mem_cons.mp hj with rfl | hj
        · exact le_of_not_lt hv
        · exact h2 j hj
      · refine Or.inr ⟨List.mem_cons_of_mem _ h1, h2, h3, ?_⟩
        intro j hj
        rcases List.mem_cons.mp hj with rfl | hj
        · exact le_trans h3 (le_of_not_lt hv)
        · exact h4 j hj

theorem tie_break_spec (tasks : List Task) (vs : List Nat) (init : Nat)
    (hne : vs ≠ []) (hlt : ∀ j ∈ vs, (tasks.getD j dTask).start_time < FLOAT_MAX) :
    tie_break tasks vs init ∈ vs ∧
    ∀ j ∈ vs, (tasks.getD (tie_break tasks vs init) dTask).start_time ≤
      (tasks.getD j dTask).start_time := by
  unfold tie_break
  rcases tie_break_fold_spec tasks vs FLOAT_MAX init with ⟨h1, h2⟩ | ⟨h1, h2, _h3, h4⟩
  · exfalso
    rcases List.exists_mem_of_ne_nil vs hne with ⟨j, hj⟩
    exact absurd (h2 j hj) (not_le_of_lt (hlt j hj))
  · exact ⟨h1, fun j hj => h2 ▸ h4 j hj⟩

/-- C6 (counterexample): for the agent at position `n = 0` with `agent_id`
5, `bundle_add` computes the bid row [10, 1] and adds task 1 — although
task 0 is eligible under the claim's mask (`|10 - 10| ≤ ε` and `n = 0 <
winners[0][0] = 3`) with the strictly larger bid 10.  The claimed selection
rule ("among eligible tasks the one with maximum bid") is false on the code,
whose tie comparison uses `agent_index_list[n] = 5`, not the position 0. -/
theorem C6_counterexample :
    (bundle_add mathAt0 cfgQC s6 0).map (fun r => (r.1.bundle_list, r.1.bid_list)) =
      .ok ([[1]], [[10, 1]]) ∧
    bid_mask_claim 0 [10, 1] [10, -1] [3, -1] 0 = true ∧
    ((10 : ℚ) > 1) :=
  ⟨by with_unfolding_all rfl, by with_unfolding_all rfl, by with_unfolding_all decide⟩

/-- C6 (amended): whenever the selection step of `bundle_add` (mask,
`argmax`, tie-break — the code of lines 283–312) chooses task `j`, then `j`
is eligible under the mask `bid - winner_bid > ε ∨ (|bid - winner_bid| ≤ ε ∧
agent_index_list[n] < winners[n][j])` with `ε = 1e-5`, its bid is strictly
positive (no task is ever added otherwise), its bid is maximal among the
eligible tasks, and among eligible tasks of equal bid its `start_time` is
earliest.  (The start times are assumed below `sys.float_info.max`, the
sentinel that seeds the tie-break scan.) -/
theorem C6_selection_characterization (s : St) (idx_agent : Nat) (j : Nat)
    (h : select_task s idx_agent = .ok (some j))
    (hstart : ∀ j', j' < s.num_tasks → (s.TaskList.getD j' dTask).start_time < FLOAT_MAX) :
    j < s.num_tasks ∧
    bid_mask (s.agent_index_list.getD idx_agent 0) (s.bid_list.getD idx_agent [])
      (s.winner_bid_list.getD idx_agent []) (s.winners_list.getD idx_agent []) j = true ∧
    (s.bid_list.getD idx_agent []).getD j (-1) > 0 ∧
    (∀ j', j' < s.num_tasks →
      bid_mask (s.agent_index_list.getD idx_agent 0) (s.bid_list.getD idx_agent [])
        (s.winner_bid_list.getD idx_agent []) (s.winners_list.getD idx_agent []) j' = true →
      (s.bid_list.getD idx_agent []).getD j' (-1) ≤ (s.bid_list.getD idx_agent []).getD j (-1)) ∧
    (∀ j', j' < s.num_tasks →
      bid_mask (s.agent_index_list.getD idx_agent 0) (s.bid_list.getD idx_agent [])
        (s.winner_bid_list.getD idx_agent []) (s.winners_list.getD idx_agent []) j' = true →
      (s.bid_list.getD idx_agent []).getD j' (-1) = (s.bid_list.getD idx_agent []).getD j (-1) →
      (s.TaskList.getD j dTask).start_time ≤ (s.TaskList.getD j' dTask).start_time) := by
  have hAlen : (array_max_list s idx_agent).length = s.num_tasks := by
    simp [array_max_list]
  have hAentry : ∀ j', j' < s.num_tasks → (array_max_list s idx_agent).getD j' 0 =
      (if bid_mask (s.agent_index_list.getD idx_agent 0) (s.bid_list.getD idx_agent [])
        (s.winner_bid_list.getD idx_agent []) (s.winners_list.getD idx_agent []) j' then
        (s.bid_list.getD idx_agent []).getD j' (-1) else 0) := by
    intro j' hj'
    simp only [array_max_list]
    exact getD_map_range _ _ _ _ hj'
  simp only [select_task] at h
  cases hmax : argmaxIdx (array_max_list s idx_agent) with
  | none => rw [hmax] at h; exact absurd h (by simp)
  | some b0 =>
    rw [hmax] at h
    dsimp only at h
    by_cases hpos : pyMax (array_max_list s idx_agent) > 0
    · rw [if_pos hpos] at h
      have hb0 := argmaxIdx_spec _ _ hmax
      have hb0M : b0 < s.num_tasks := hAlen ▸ hb0.1
      have hb0mem : b0 ∈ (List.range s.num_tasks).filter
          (fun j' => (array_max_list s idx_agent).getD j' 0 == pyMax (array_max_list s idx_agent)) := by
        rw [List.mem_filter]
        exact ⟨List.mem_range.mpr hb0M, beq_iff_eq.mpr hb0.2⟩
      have hmem_iff : ∀ j', j' ∈ (List.range s.num_tasks).filter
          (fun j' => (array_max_list s idx_agent).getD j' 0 == pyMax (array_max_list s idx_agent)) ↔
          j' < s.num_tasks ∧ (array_max_list s idx_agent).getD j' 0
            = pyMax (array_max_list s idx_agent) := by
        intro j'
        rw [List.mem_filter, List.mem_range, beq_iff_eq]
      -- the chosen task is a member of all_values with minimal start_time
      have hkey : j ∈ (List.range s.num_tasks).filter
          (fun j' => (array_max_list s idx_agent).getD j' 0 == pyMax (array_max_list s idx_agent)) ∧
          ∀ j' ∈ (List.range s.num_tasks).filter
            (fun j' => (array_max_list s idx_agent).getD j' 0 == pyMax (array_max_list s idx_agent)),
            (s.TaskList.getD j dTask).start_time ≤ (s.TaskList.getD j' dTask).start_time := by
        have hj := Except.ok.inj h
        have hj' := Option.some.inj hj
        by_cases hlen : ((List.range s.num_tasks).filter
            (fun j' => (array_max_list s idx_agent).getD j' 0 ==
              pyMax (array_max_list s idx_agent))).length = 1
        · rw [if_pos hlen] at hj'
          rcases List.length_eq_one.mp hlen with ⟨x, hx⟩
          rw [hx] at hj' ⊢
          simp only [List.headD_cons] at hj'
          subst hj'
          refine ⟨List.mem_singleton_self _, ?_⟩
          intro j' hj'mem
          rw [List.mem_singleton] at hj'mem
          subst hj'mem
          exact le_refl _
        · rw [if_neg hlen] at hj'
          subst hj'
          have hne : (List.range s.num_tasks).filter
              (fun j' => (array_max_list s idx_agent).getD j' 0 ==
                pyMax (array_max_list s idx_agent)) ≠ [] :=
            List.ne_nil_of_mem hb0mem
          have hlt : ∀ j' ∈ (List.range s.num_tasks).filter
              (fun j' => (array_max_list s idx_agent).getD j' 0 ==
                pyMax (array_max_list s idx_agent)),
              (s.TaskList.getD j' dTask).start_time < FLOAT_MAX := by
            intro j' hj'mem
            exact hstart j' ((hmem_iff j').mp hj'mem).1
          exact tie_break_spec s.TaskList _ b0 hne hlt
      have hjM : j < s.num_tasks := ((hmem_iff j).mp hkey.1).1
      have hjval : (array_max_list s idx_agent).getD j 0 = pyMax (array_max_list s idx_agent) :=
        ((hmem_iff j).mp hkey.1).2
      have hmask : bid_mask (s.agent_index_list.getD idx_agent 0) (s.bid_list.getD idx_agent [])
          (s.winner_bid_list.getD idx_agent []) (s.winners_list.getD idx_agent []) j = true := by
        by_contra hc
        rw [hAentry j hjM, if_neg (by simpa using hc)] at hjval
        rw [← hjval] at hpos
        exact lt_irrefl 0 hpos
      have hbidj : (s.bid_list.getD idx_agent []).getD j (-1)
          = pyMax (array_max_list s idx_agent) := by
        rw [hAentry j hjM, if_pos hmask] at hjval
        exact hjval
      refine ⟨hjM, hmask, by rw [hbidj]; exact hpos, ?_, ?_⟩
      · intro j' hj'M hmask'
        have hmem' : (array_max_list s idx_agent).getD j' 0 ∈ array_max_list s idx_agent :=
          getD_mem_of_lt _ _ _ (hAlen ▸ hj'M)
        have hle := pyMax_ge _ _ hmem'
        rw [hAentry j' hj'M, if_pos hmask'] at hle
        rw [hbidj]
        exact hle
      · intro j' hj'M hmask' heq
        refine hkey.2 j' ((hmem_iff j').mpr ⟨hj'M, ?_⟩)
        rw [hAentry j' hj'M, if_pos hmask', heq, hbidj]
    · rw [if_neg hpos] at h
      exact absurd h (by simp)

/-- Witness for C6_selection_characterization: at `sW` the selection step
picks task 0 (bid 10). -/
theorem C6_selection_characterization_witness :
    0 < sW.num_tasks ∧
    bid_mask (sW.agent_index_list.getD 0 0) (sW.bid_list.getD 0 [])
      (sW.winner_bid_list.getD 0 []) (sW.winners_list.getD 0 []) 0 = true ∧
    (sW.bid_list.getD 0 []).getD 0 (-1) > 0 ∧
    (∀ j', j' < sW.num_tasks →
      bid_mask (sW.agent_index_list.getD 0 0) (sW.bid_list.getD 0 [])
        (sW.winner_bid_list.getD 0 []) (sW.winners_list.getD 0 []) j' = true →
      (sW.bid_list.getD 0 []).getD j' (-1) ≤ (sW.bid_list.getD 0 []).getD 0 (-1)) ∧
    (∀ j', j' < sW.num_tasks →
      bid_mask (sW.agent_index_list.getD 0 0) (sW.bid_list.getD 0 [])
        (sW.winner_bid_list.getD 0 []) (sW.winners_list.getD 0 []) j' = true →
      (sW.bid_list.getD 0 []).getD j' (-1) = (sW.bid_list.getD 0 []).getD 0 (-1) →
      (sW.TaskList.getD 0 dTask).start_time ≤ (sW.TaskList.getD j' dTask).start_time) :=
  C6_selection_characterization sW 0 0 (by with_unfolding_all rfl)
    (by with_unfolding_all decide)

/-! ## List lemmas for the invariant proofs -/

theorem getD_set_self {α : Type} : ∀ (l : List α) (n : Nat) (v d : α), n < l.length →
    (l.set n v).getD n d = v := by
  intro l
  induction l with
  | nil => intro n v d h; simp at h
  | cons a as ih =>
    intro n v d h
    cases n with
    | zero => rfl
    | succ n => exact ih n v d (by simpa using h)

theorem getD_append_left {α : Type} : ∀ (l1 l2 : List α) (i : Nat) (d : α), i < l1.length →
    (l1 ++ l2).getD i d = l1.getD i d := by
  intro l1
  induction l1 with
  | nil => intro l2 i d h; simp at h
  | cons a as ih =>
    intro l2 i d h
    cases i with
    | zero => rfl
    | succ i => exact ih l2 i d (by simpa using h)

theorem getD_append_right {α : Type} : ∀ (l1 l2 : List α) (i : Nat) (d : α), l1.length ≤ i →
    (l1 ++ l2).getD i d = l2.getD (i - l1.length) d := by
  intro l1
  induction l1 with
  | nil => intro l2 i d _; rfl
  | cons a as ih =>
    intro l2 i d h
    cases i with
    | zero => simp at h
    | succ i => simpa using ih l2 i d (by simpa using h)

theorem getD_replicate_lt {α : Type} : ∀ (k i : Nat) (x d : α), i < k →
    (List.replicate k x).getD i d = x := by
  intro k
  induction k with
  | zero => intro i x d h; simp at h
  | succ k ih =>
    intro i x d h
    cases i with
    | zero => rfl
    | succ i => exact ih i x d (by omega)

theorem set_append_right' {α : Type} : ∀ (l1 l2 : List α) (i : Nat) (v : α), l1.length ≤ i →
    (l1 ++ l2).set i v = l1 ++ l2.set (i - l1.length) v := by
  intro l1
  induction l1 with
  | nil => intro l2 i v _; rfl
  | cons a as ih =>
    intro l2 i v h
    cases i with
    | zero => simp at h
    | succ i => simpa using ih l2 i v (by simpa using h)

theorem drop_eq_getD_cons {α : Type} : ∀ (l : List α) (c : Nat) (d : α), c < l.length →
    l.drop c = l.getD c d :: l.drop (c + 1) := by
  intro l
  induction l with
  | nil => intro c d h; simp at h
  | cons a as ih =>
    intro c d h
    cases c with
    | zero => rfl
    | succ c => simpa using ih c d (by simpa using h)

theorem replicate_append_cons {α : Type} (k : Nat) (x : α) (t : List α) :
    List.replicate k x ++ x :: t = List.replicate (k + 1) x ++ t := by
  rw [List.replicate_succ' k x, List.append_assoc]
  rfl

theorem firstIdx_some_of_mem : ∀ (l : List Int) (b : Int), b ∈ l →
    ∃ i, firstIdx (· == b) l = some i := by
  intro l
  induction l with
  | nil => intro b h; cases h
  | cons a as ih =>
    intro b h
    by_cases hab : a == b
    · exact ⟨0, by simp [firstIdx, hab]⟩
    · rcases List.mem_cons.mp h with rfl | h
      · exact absurd (beq_self_eq_true b) hab
      · rcases ih b h with ⟨i, hi⟩
        exact ⟨i + 1, by simp [firstIdx, hab, hi]⟩

theorem eraseIdx_of_firstIdx : ∀ (l : List Int) (b : Int) (i : Nat),
    firstIdx (· == b) l = some i → l.eraseIdx i = l.erase b ∧ i < l.length := by
  intro l
  induction l with
  | nil => intro b i h; simp [firstIdx] at h
  | cons a as ih =>
    intro b i h
    rw [firstIdx] at h
    by_cases hab : (a == b) = true
    · rw [if_pos hab] at h
      have hi : 0 = i := Option.some.inj h
      subst hi
      refine ⟨?_, by simp⟩
      have hae : a = b := beq_iff_eq.mp hab
      subst hae
      rw [List.erase_cons_head]
      rfl
    · rw [if_neg hab] at h
      cases hfi : firstIdx (· == b) as with
      | none => rw [hfi] at h; exact Option.noConfusion h
      | some i' =>
        rw [hfi] at h
        have hii : i' + 1 = i := by
          have h' : some (i' + 1) = some i := h
          exact Option.some.inj h'
        subst hii
        rcases ih b i' hfi with ⟨h1, h2⟩
        constructor
        · show a :: as.eraseIdx i' = (a :: as).erase b
          rw [List.erase_cons, if_neg hab, h1]
        · simpa using h2

/-! ## Well-formedness of the per-agent assignment rows -/

theorem filter_of_rowClean {D : Nat} {row pre : List Int} (h : RowClean D row pre) :
    row.filter (fun a => a != -1) = pre := by
  rcases h with ⟨hrow, _hlen, hpos⟩
  rw [hrow, List.filter_append]
  have h1 : pre.filter (fun a => a != -1) = pre := by
    rw [List.filter_eq_self]
    intro b hb
    have := hpos b hb
    simp only [bne_iff_ne, ne_eq, decide_eq_true_eq]
    omega
  have h2 : (List.replicate (D - pre.length) (-1 : Int)).filter (fun a => a != -1) = [] := by
    rw [List.filter_eq_nil]
    intro b hb
    have := List.eq_of_mem_replicate hb
    subst this
    simp
  rw [h1, h2, List.append_nil]

theorem agentWf_pathInv {s : St} {n : Nat} (h : AgentWf s n) : PathInv s n := by
  rcases h with ⟨_, _, _, _, _, bpre, ppre, hb, hp, _, _, hperm, hnodup⟩
  unfold PathInv
  rw [filter_of_rowClean hb, filter_of_rowClean hp]
  exact ⟨hnodup, hperm⟩

theorem settings_agentWf (A : List Agent) (T : List Task) (w : WorldInfo) (d : Nat)
    (f : Bool) (n : Nat) (hn : n < A.length) : AgentWf (settings A T w d f) n := by
  refine ⟨by simpa [settings] using hn, by simpa [settings] using hn,
    by simpa [settings] using hn, by simpa [settings] using hn,
    by simpa [settings] using hn, [], [], ?_, ?_, ?_, ?_, List.Perm.refl _, List.nodup_nil⟩
  · refine ⟨?_, by simp, by simp⟩
    show (List.replicate A.length (List.replicate d (-1 : Int))).getD n []
      = [] ++ List.replicate (d - 0) (-1)
    rw [getD_replicate_lt _ _ _ _ hn]
    simp
  · refine ⟨?_, by simp, by simp⟩
    show (List.replicate A.length (List.replicate d (-1 : Int))).getD n []
      = [] ++ List.replicate (d - 0) (-1)
    rw [getD_replicate_lt _ _ _ _ hn]
    simp
  · show ((List.replicate A.length (List.replicate d (-1 : ℚ))).getD n []).length = d
    rw [getD_replicate_lt _ _ _ _ hn]
    simp
  · show ((List.replicate A.length (List.replicate d (-1 : ℚ))).getD n []).length = d
    rw [getD_replicate_lt _ _ _ _ hn]
    simp

theorem stShape_refl (s : St) : StShape s s :=
  ⟨rfl, rfl, rfl, rfl, rfl, rfl, rfl, rfl, rfl, rfl, rfl, rfl, rfl⟩

theorem stShape_trans {s1 s2 s3 : St} (h1 : StShape s1 s2) (h2 : StShape s2 s3) :
    StShape s1 s3 := by
  obtain ⟨a1, a2, a3, a4, a5, a6, a7, a8, a9, a10, a11, a12, a13⟩ := h1
  obtain ⟨b1, b2, b3, b4, b5, b6, b7, b8, b9, b10, b11, b12, b13⟩ := h2
  exact ⟨b1.trans a1, b2.trans a2, b3.trans a3, b4.trans a4, b5.trans a5, b6.trans a6,
    b7.trans a7, b8.trans a8, b9.trans a9, b10.trans a10, b11.trans a11, b12.trans a12,
    b13.trans a13⟩

theorem removeMid_getD_bundle {s : St} {n : Nat} {bpre : List Int} {i0 c : Nat}
    (h : RemoveMid s n bpre i0 c) (hc : c < bpre.length) :
    (s.bundle_list.getD n []).getD c (-1) = bpre.getD c (-1) := by
  obtain ⟨hi0c, hcL, hLD, _hpos, _hnd, hrow, _⟩ := h
  have hlen1 : (bpre.take i0).length = i0 := by
    rw [List.length_take]; omega
  have hlen2 : (bpre.take i0 ++ List.replicate (c - i0) (-1 : Int)).length = c := by
    rw [List.length_append, hlen1, List.length_replicate]; omega
  have hgrp : s.bundle_list.getD n [] =
      (bpre.take i0 ++ List.replicate (c - i0) (-1)) ++
        (bpre.drop c ++ List.replicate (s.max_depth - bpre.length) (-1)) := by
    rw [hrow, List.append_assoc]
  rw [hgrp, getD_append_right _ _ _ _ (le_of_eq hlen2), hlen2, Nat.sub_self,
    getD_append_left _ _ _ _ (by rw [List.length_drop]; omega),
    drop_eq_getD_cons bpre c (-1) hc]
  rfl

theorem getD_set_ne {α : Type} : ∀ (l : List α) (i j : Nat) (v d : α), i ≠ j →
    (l.set i v).getD j d = l.getD j d := by
  intro l
  induction l with
  | nil => intro i j v d _; simp
  | cons a as ih =>
    intro i j v d hij
    cases i with
    | zero =>
      cases j with
      | zero => exact absurd rfl hij
      | succ j => rfl
    | succ i =>
      cases j with
      | zero => rfl
      | succ j => exact ih i j v d (by omega)

theorem rowClean_length {D : Nat} {row pre : List Int} (h : RowClean D row pre) :
    row.length = D := by
  rcases h with ⟨hrow, hlen, _⟩
  rw [hrow, List.length_append, List.length_replicate]
  omega

theorem rowClean_unique {D : Nat} {row p q : List Int} (hp : RowClean D row p)
    (hq : RowClean D row q) : p = q := by
  rw [← filter_of_rowClean hp, ← filter_of_rowClean hq]

theorem rowClean_lt_of_mem_neg {D : Nat} {row pre : List Int} (h : RowClean D row pre)
    (hm : (-1 : Int) ∈ row) : pre.length < D := by
  rcases h with ⟨hrow, hlen, hpos⟩
  rcases Nat.lt_or_ge pre.length D with hlt | hge
  · exact hlt
  · exfalso
    have hD : D - pre.length = 0 := by omega
    rw [hrow, hD] at hm
    simp only [List.replicate_zero, List.append_nil] at hm
    have := hpos _ hm
    omega

theorem firstIdx_append_nonneg : ∀ (pre : List Int), (∀ b ∈ pre, 0 ≤ b) →
    ∀ (t : List Int), firstIdx (· == (-1 : Int)) (pre ++ (-1) :: t) = some pre.length := by
  intro pre
  induction pre with
  | nil => intro _ t; simp [firstIdx]
  | cons a as ih =>
    intro hpos t
    have ha : ¬ ((a == (-1 : Int)) = true) := by
      simp only [beq_iff_eq]
      have := hpos a (List.mem_cons_self a as)
      omega
    show firstIdx (· == (-1 : Int)) (a :: (as ++ (-1) :: t)) = some (as.length + 1)
    rw [firstIdx, if_neg ha, ih (fun b hb => hpos b (List.mem_cons_of_mem a hb)) t]
    rfl

/-- On a clean row with at least one free slot, the first `-1` sits right
after the non-sentinel prefix: `compute_bid`'s `index_array` search finds
`pathLen = pre.length`. -/
theorem firstIdx_clean {D : Nat} {row pre : List Int} (h : RowClean D row pre)
    (hlt : pre.length < D) : firstIdx (· == (-1 : Int)) row = some pre.length := by
  rcases h with ⟨hrow, _hlen, hpos⟩
  have hD : D - pre.length = (D - pre.length - 1) + 1 := by omega
  rw [hrow, hD, List.replicate_succ]
  exact firstIdx_append_nonneg pre hpos _

/-- The bundle-length count of `bundle_add` (`len(bundle[np.array(bundle) >
-1])`) on a clean row is the length of the non-sentinel prefix. -/
theorem countP_clean {D : Nat} {row pre : List Int} (h : RowClean D row pre) :
    row.countP (· > (-1 : Int)) = pre.length := by
  rcases h with ⟨hrow, _hlen, hpos⟩
  rw [hrow, List.countP_append]
  have h1 : pre.countP (· > (-1 : Int)) = pre.length := by
    rw [List.countP_eq_length]
    intro a ha
    have := hpos a ha
    simp only [decide_eq_true_eq]
    omega
  have h2 : (List.replicate (D - pre.length) (-1 : Int)).countP (· > (-1 : Int)) = 0 := by
    rw [List.countP_eq_zero]
    intro a ha
    have := List.eq_of_mem_replicate ha
    subst this
    simp
  omega

theorem dropLast_append_singleton {α : Type} (l : List α) (a : α) :
    (l ++ [a]).dropLast = l :=
  List.dropLast_concat

/-- `l.insert(i, v)` followed by `del l[-1]`, for a nonnegative in-range
index: the last element is discarded and `v` enters at position `i`. -/
theorem pyInsertDropLast_eq {α : Type} (l : List α) (y : α) (i : Int) (v : α)
    (hi : 0 ≤ i) (hk : i.toNat ≤ l.length) :
    pyInsertDropLast (l ++ [y]) i v = l.take i.toNat ++ v :: l.drop i.toNat := by
  unfold pyInsertDropLast
  rw [if_neg (by omega)]
  show (List.take i.toNat (l ++ [y]) ++ v :: List.drop i.toNat (l ++ [y])).dropLast =
    List.take i.toNat l ++ v :: List.drop i.toNat l
  rw [List.take_append_of_le_length hk, List.drop_append_of_le_length hk]
  show (l.take i.toNat ++ (v :: l.drop i.toNat ++ [y])).dropLast = _
  rw [← List.append_assoc]
  exact dropLast_append_singleton _ y

theorem pyInsertDropLast_length {α : Type} (l : List α) (i : Int) (v : α)
    (hi : 0 ≤ i) (hk : i.toNat ≤ l.length) :
    (pyInsertDropLast l i v).length = l.length := by
  unfold pyInsertDropLast
  rw [if_neg (by omega)]
  rw [List.length_dropLast, List.length_append, List.length_take, List.length_cons,
    List.length_drop]
  omega

/-- Invariant preservation along an error-propagating fold, with membership
of the cursor in the folded list available at each step. -/
theorem exceptFold_inv_mem {α β : Type} {f : α → β → Except CErr α} {P : α → Prop} :
    ∀ (l : List β) (a a' : α),
    (∀ x b, b ∈ l → P x → ∀ x', f x b = .ok x' → P x') →
    P a → exceptFold f l a = .ok a' → P a' := by
  intro l
  induction l with
  | nil =>
    intro a a' _ hP h
    rw [exceptFold] at h
    cases h
    exact hP
  | cons b bs ih =>
    intro a a' hf hP h
    rw [exceptFold] at h
    cases hfb : f a b with
    | error e => rw [hfb] at h; exact Except.noConfusion h
    | ok a1 =>
      rw [hfb] at h
      exact ih a1 a' (fun x c hc => hf x c (List.mem_cons_of_mem b hc))
        (hf a b (List.mem_cons_self b bs) hP a1 hfb) h

theorem remove_upd_shape (s : St) (n : Nat) (wr : List Int) (wbr : List ℚ) (c ir : Nat) :
    StShape s (remove_upd s n wr wbr c ir) := by
  unfold remove_upd StShape
  refine ⟨rfl, rfl, rfl, rfl, rfl, rfl, rfl, rfl, ?_, ?_, ?_, ?_, rfl⟩ <;> simp

theorem removeMid_mem_path {s : St} {n : Nat} {bpre : List Int} {i0 c : Nat}
    (h : RemoveMid s n bpre i0 c) (hc : c < bpre.length) :
    bpre.getD c (-1) ∈ s.path_list.getD n [] := by
  obtain ⟨hi0c, hcL, hLD, _hpos, _hnd, _hrow, ⟨ppre, hpclean, hperm, _hpnd⟩, _⟩ := h
  have hbd : bpre.drop c = bpre.getD c (-1) :: bpre.drop (c + 1) :=
    drop_eq_getD_cons bpre c (-1) hc
  have hmem : bpre.getD c (-1) ∈ bpre.take i0 ++ bpre.drop c :=
    List.mem_append.mpr (Or.inr (by rw [hbd]; exact List.mem_cons_self _ _))
  have hppre : bpre.getD c (-1) ∈ ppre := hperm.subset hmem
  rw [hpclean.1]
  exact List.mem_append.mpr (Or.inl hppre)

/-- One outbid release step of `bundle_remove` carries the mid-loop shape
from cursor `c` to `c + 1`: clearing bundle position `c` and deleting its
task from the path preserves the correspondence between the two rows. -/
theorem remove_step_mid {s : St} {n : Nat} {bpre : List Int} {i0 c : Nat}
    (h : RemoveMid s n bpre i0 c) (hc : c < bpre.length)
    (wr : List Int) (wbr : List ℚ) {ir : Nat}
    (hfi : firstIdx (· == bpre.getD c (-1)) (s.path_list.getD n []) = some ir) :
    RemoveMid (remove_upd s n wr wbr c ir) n bpre i0 (c + 1) := by
  obtain ⟨hi0c, hcL, hLD, hpos, hnd, hrow, ⟨ppre, hpclean, hperm, hpnd⟩, htlen, hslen,
    hnb, hnp, hnt, hns, hnbid⟩ := h
  have hplen : (s.path_list.getD n []).length = s.max_depth := rowClean_length hpclean
  have hbd : bpre.drop c = bpre.getD c (-1) :: bpre.drop (c + 1) :=
    drop_eq_getD_cons bpre c (-1) hc
  have hbmem : bpre.getD c (-1) ∈ bpre.take i0 ++ bpre.drop c :=
    List.mem_append.mpr (Or.inr (by rw [hbd]; exact List.mem_cons_self _ _))
  have hbppre : bpre.getD c (-1) ∈ ppre := hperm.subset hbmem
  have herase := eraseIdx_of_firstIdx _ _ _ hfi
  -- the untouched part of the prefix has no duplicates, so the cleared task
  -- does not sit in `bpre.take i0`
  have htk : (bpre.take c).take i0 = bpre.take i0 := by
    rw [List.take_take, Nat.min_eq_left hi0c]
  have htd_sub : List.Sublist (bpre.take i0 ++ bpre.drop c) bpre := by
    have h1 : List.Sublist (bpre.take i0) (bpre.take c) :=
      htk ▸ List.take_sublist i0 (bpre.take c)
    have h2 := List.Sublist.append h1 (List.Sublist.refl (bpre.drop c))
    rwa [List.take_append_drop] at h2
  have hnd_td : (bpre.take i0 ++ bpre.drop c).Nodup := List.Nodup.sublist htd_sub hnd
  have hdisj := (List.nodup_append.mp hnd_td).2.2
  have hbnotin : bpre.getD c (-1) ∉ bpre.take i0 := fun hmem =>
    hdisj hmem (by rw [hbd]; exact List.mem_cons_self _ _)
  have he1 : (bpre.take i0 ++ bpre.drop c).erase (bpre.getD c (-1)) =
      bpre.take i0 ++ bpre.drop (c + 1) := by
    rw [List.erase_append_right _ hbnotin, hbd, List.erase_cons_head]
  have hperm' : List.Perm (bpre.take i0 ++ bpre.drop (c + 1)) (ppre.erase (bpre.getD c (-1))) := by
    have := hperm.erase (bpre.getD c (-1))
    rwa [he1] at this
  have hppos : 0 < ppre.length := List.length_pos_of_mem hbppre
  have hppD : ppre.length ≤ s.max_depth := hpclean.2.1
  have hgetb : (s.bundle_list.getD n []).getD c (-1) = bpre.getD c (-1) :=
    removeMid_getD_bundle ⟨hi0c, hcL, hLD, hpos, hnd, hrow,
      ⟨ppre, hpclean, hperm, hpnd⟩, htlen, hslen, hnb, hnp, hnt, hns, hnbid⟩ hc
  unfold remove_upd RemoveMid
  dsimp only
  refine ⟨by omega, by omega, hLD, hpos, hnd, ?_, ⟨ppre.erase (bpre.getD c (-1)), ?_, hperm',
    (List.Nodup.erase _ hpnd)⟩, ?_, ?_, by simpa using hnb, by simpa using hnp,
    by simpa using hnt, by simpa using hns, by simpa using hnbid⟩
  · -- the new bundle row: position `c` cleared
    rw [getD_set_self _ n _ [] hnb]
    have hlen2 : (bpre.take i0 ++ List.replicate (c - i0) (-1 : Int)).length = c := by
      rw [List.length_append, List.length_take, List.length_replicate]; omega
    have hgrp : s.bundle_list.getD n [] =
        (bpre.take i0 ++ List.replicate (c - i0) (-1)) ++
          (bpre.drop c ++ List.replicate (s.max_depth - bpre.length) (-1)) := by
      rw [hrow, List.append_assoc]
    rw [hgrp, set_append_right' _ _ _ _ (le_of_eq hlen2), hlen2, Nat.sub_self, hbd]
    show (bpre.take i0 ++ List.replicate (c - i0) (-1)) ++
        ((-1 : Int) :: (bpre.drop (c + 1) ++ List.replicate (s.max_depth - bpre.length) (-1))) = _
    rw [List.append_assoc, replicate_append_cons]
    have hci : c - i0 + 1 = c + 1 - i0 := by omega
    rw [hci]
    simp [List.append_assoc]
  · -- the new path row: the cleared task erased, one more sentinel at the end
    rw [getD_set_self _ n _ [] hnp, herase.1]
    have hrp : (s.path_list.getD n []).erase (bpre.getD c (-1)) =
        ppre.erase (bpre.getD c (-1)) ++ List.replicate (s.max_depth - ppre.length) (-1) := by
      rw [hpclean.1, List.erase_append_left _ hbppre]
    refine ⟨?_, ?_, ?_⟩
    · rw [hrp, List.append_assoc]
      have h1 : List.replicate (s.max_depth - ppre.length) (-1 : Int) ++ [-1] =
          List.replicate (s.max_depth - ppre.length + 1) (-1) :=
        (List.replicate_succ' _ _).symm
      rw [h1, List.length_erase_of_mem hbppre]
      have h2 : s.max_depth - ppre.length + 1 = s.max_depth - (ppre.length - 1) := by omega
      rw [h2]
    · rw [List.length_erase_of_mem hbppre]; omega
    · intro x hx
      exact hpclean.2.2 x (List.erase_subset _ _ hx)
  · -- times row keeps length `max_depth`
    rw [getD_set_self _ n _ [] hnt, List.length_append, List.length_eraseIdx]
    rw [htlen]
    have hir : ir < s.max_depth := by rw [← hplen]; exact herase.2
    rw [if_pos hir]
    simp
    omega
  · -- scores row keeps length `max_depth`
    rw [getD_set_self _ n _ [] hns, List.length_append, List.length_eraseIdx]
    rw [hslen]
    have hir : ir < s.max_depth := by rw [← hplen]; exact herase.2
    rw [if_pos hir]
    simp
    omega

/-- When the cursor has consumed the whole original prefix, the mid-loop
shape collapses to the pristine shape over the kept prefix `bpre.take i0`. -/
theorem removeMid_collapse {s : St} {n : Nat} {bpre : List Int} {i0 : Nat}
    (h : RemoveMid s n bpre i0 bpre.length) :
    RemoveMid s n (bpre.take i0) i0 i0 := by
  obtain ⟨hi0c, _hcL, hLD, hpos, hnd, hrow, ⟨ppre, hpclean, hperm, hpnd⟩, htlen, hslen,
    hnb, hnp, hnt, hns, hnbid⟩ := h
  have htki : (bpre.take i0).length = i0 := by rw [List.length_take]; omega
  refine ⟨le_refl i0, le_of_eq htki.symm, by rw [htki]; omega,
    fun b hb => hpos b (List.mem_of_mem_take hb),
    List.Nodup.sublist (List.take_sublist i0 bpre) hnd, ?_, ⟨ppre, hpclean, ?_, hpnd⟩,
    htlen, hslen, hnb, hnp, hnt, hns, hnbid⟩
  · rw [hrow, List.drop_length]
    have h1 : List.take i0 (bpre.take i0) = bpre.take i0 := by
      rw [List.take_take, Nat.min_self]
    have h2 : List.drop i0 (bpre.take i0) = [] :=
      List.drop_eq_nil_of_le (le_of_eq htki)
    rw [h1, h2, htki, Nat.sub_self]
    have h3 : List.replicate (bpre.length - i0) (-1 : Int) ++
        List.replicate (s.max_depth - bpre.length) (-1) =
        List.replicate (s.max_depth - i0) (-1) := by
      rw [← List.replicate_add]
      congr 1
      omega
    simp only [List.replicate_zero, List.append_nil, List.nil_append]
    rw [List.append_assoc, h3]
  · have h1 : List.take i0 (bpre.take i0) = bpre.take i0 := by
      rw [List.take_take, Nat.min_self]
    have h2 : List.drop i0 (bpre.take i0) = [] :=
      List.drop_eq_nil_of_le (le_of_eq htki)
    rw [h1, h2, List.append_nil]
    have := hperm
    rwa [List.drop_length, List.append_nil] at this

/-- At the sentinel position `c = bpre.length < max_depth`, the bundle row
reads `-1` (the loop's `break`). -/
theorem removeMid_getD_end {s : St} {n : Nat} {bpre : List Int} {i0 : Nat}
    (h : RemoveMid s n bpre i0 bpre.length) (hD : bpre.length < s.max_depth) :
    (s.bundle_list.getD n []).getD bpre.length (-1) = -1 := by
  obtain ⟨hi0c, _hcL, hLD, _hpos, _hnd, hrow, _⟩ := h
  have hlen2 : (bpre.take i0 ++ List.replicate (bpre.length - i0) (-1 : Int)).length
      = bpre.length := by
    rw [List.length_append, List.length_take, List.length_replicate]; omega
  have hgrp : s.bundle_list.getD n [] =
      (bpre.take i0 ++ List.replicate (bpre.length - i0) (-1)) ++
        List.replicate (s.max_depth - bpre.length) (-1) := by
    rw [hrow, List.drop_length, List.append_nil, List.append_assoc]
  rw [hgrp, getD_append_right _ _ _ _ (le_of_eq hlen2), hlen2, Nat.sub_self,
    getD_replicate_lt _ _ _ _ (by omega)]

/-- The pristine shape does not depend on the cursor: it can be restated at
any cursor position within the prefix. -/
theorem removeMid_diag_step {s : St} {n : Nat} {bpre : List Int} {c c' : Nat}
    (h : RemoveMid s n bpre c c) (hc : c' ≤ bpre.length) :
    RemoveMid s n bpre c' c' := by
  obtain ⟨_hi0c, hcL, hLD, hpos, hnd, hrow, ⟨ppre, hpclean, hperm, hpnd⟩, htlen, hslen,
    hnb, hnp, hnt, hns, hnbid⟩ := h
  refine ⟨le_refl c', hc, hLD, hpos, hnd, ?_, ⟨ppre, hpclean, ?_, hpnd⟩,
    htlen, hslen, hnb, hnp, hnt, hns, hnbid⟩
  · rw [hrow]
    simp only [Nat.sub_self, List.replicate_zero, List.append_nil]
    rw [List.take_append_drop, List.take_append_drop]
  · have := hperm
    rw [List.take_append_drop] at this
    rw [List.take_append_drop]
    exact this

/-- The release phase of `bundle_remove`'s loop: once `out_bid` is set, every
remaining non-sentinel bundle position is cleared, ending in the pristine
shape over the kept prefix `bpre.take i0`. -/
theorem remove_go_outbid : ∀ (len : Nat) (s : St) (n : Nat) (aid : Int) (bpre : List Int)
    (i0 c : Nat), c + len = s.max_depth → RemoveMid s n bpre i0 c →
    ∃ s', bundle_remove_go n aid (List.range' c len) s true = .ok s' ∧ StShape s s' ∧
      RemoveMid s' n (bpre.take i0) i0 i0 := by
  intro len
  induction len with
  | zero =>
    intro s n aid bpre i0 c hlen h
    have hcL : c ≤ bpre.length := h.2.1
    have hLD : bpre.length ≤ s.max_depth := h.2.2.1
    have hcl : c = bpre.length := by omega
    subst hcl
    exact ⟨s, rfl, stShape_refl s, removeMid_collapse h⟩
  | succ len ih =>
    intro s n aid bpre i0 c hlen h
    have hcL : c ≤ bpre.length := h.2.1
    rw [List.range'_succ]
    rcases Nat.lt_or_ge c bpre.length with hc | hc
    · -- a live bundle entry: release it and recurse
      have hgetb := removeMid_getD_bundle h hc
      have hbge : 0 ≤ bpre.getD c (-1) := h.2.2.2.1 _ (getD_mem_of_lt bpre c (-1) hc)
      have hmem := removeMid_mem_path h hc
      rcases firstIdx_some_of_mem _ _ hmem with ⟨ir, hfi⟩
      have hstep := remove_step_mid h hc
        (if pyGet (s.winners_list.getD n []) (bpre.getD c (-1)) (-1) = aid
          then pySet (s.winners_list.getD n []) (bpre.getD c (-1)) (-1)
          else s.winners_list.getD n [])
        (if pyGet (s.winners_list.getD n []) (bpre.getD c (-1)) (-1) = aid
          then pySet (s.winner_bid_list.getD n []) (bpre.getD c (-1)) (-1)
          else s.winner_bid_list.getD n []) hfi
      rcases ih _ n aid bpre i0 (c + 1) (by show c + 1 + len = s.max_depth; omega) hstep
        with ⟨s', hrun, hsh, hmid⟩
      refine ⟨s', ?_, stShape_trans (remove_upd_shape s n _ _ c ir) hsh, hmid⟩
      show bundle_remove_go n aid (c :: List.range' (c + 1) len) s true = .ok s'
      rw [bundle_remove_go]
      simp only [hgetb]
      rw [if_neg (by omega : ¬ bpre.getD c (-1) < 0)]
      simp only [ite_self]
      rw [if_pos trivial, hfi]
      exact hrun
    · -- the sentinel: the loop breaks, nothing left to clear
      have hcl : c = bpre.length := by omega
      subst hcl
      refine ⟨s, ?_, stShape_refl s, removeMid_collapse h⟩
      rw [bundle_remove_go]
      rw [if_pos (by rw [removeMid_getD_end h (by omega)]; omega)]

/-- The scanning phase of `bundle_remove`'s loop: the state is untouched
while the believed winner of each bundled task equals `aid`; at the first
position `i0` where it differs (or at the sentinel), the remaining entries
are released. -/
theorem remove_go_scan : ∀ (len : Nat) (s : St) (n : Nat) (aid : Int) (bpre : List Int)
    (c : Nat), c + len = s.max_depth → RemoveMid s n bpre c c →
    ∃ s' i0, bundle_remove_go n aid (List.range' c len) s false = .ok s' ∧ StShape s s' ∧
      c ≤ i0 ∧ i0 ≤ bpre.length ∧
      (∀ j, c ≤ j → j < i0 → pyGet (s.winners_list.getD n []) (bpre.getD j (-1)) (-1) = aid) ∧
      (i0 < bpre.length → pyGet (s.winners_list.getD n []) (bpre.getD i0 (-1)) (-1) ≠ aid) ∧
      RemoveMid s' n (bpre.take i0) i0 i0 := by
  intro len
  induction len with
  | zero =>
    intro s n aid bpre c hlen h
    have hcL : c ≤ bpre.length := h.2.1
    have hLD : bpre.length ≤ s.max_depth := h.2.2.1
    have hcl : c = bpre.length := by omega
    refine ⟨s, c, rfl, stShape_refl s, le_refl c, by omega, fun j h1 h2 => by omega,
      fun hlt => by omega, ?_⟩
    subst hcl
    exact removeMid_collapse h
  | succ len ih =>
    intro s n aid bpre c hlen h
    have hcL : c ≤ bpre.length := h.2.1
    rw [List.range'_succ]
    rcases Nat.lt_or_ge c bpre.length with hc | hc
    · -- live entry: compare the believed winner against `aid`
      have hgetb := removeMid_getD_bundle h hc
      have hbge : 0 ≤ bpre.getD c (-1) := h.2.2.2.1 _ (getD_mem_of_lt bpre c (-1) hc)
      by_cases hw : pyGet (s.winners_list.getD n []) (bpre.getD c (-1)) (-1) = aid
      · -- winner matches: the scan moves on, state untouched
        have hdiag : RemoveMid s n bpre (c + 1) (c + 1) := removeMid_diag_step h (by omega)
        rcases ih s n aid bpre (c + 1) (by omega) hdiag
          with ⟨s', i0, hrun, hsh, hci0, hi0L, hall, hmis, hmid⟩
        refine ⟨s', i0, ?_, hsh, by omega, hi0L, ?_, hmis, hmid⟩
        · show bundle_remove_go n aid (c :: List.range' (c + 1) len) s false = .ok s'
          rw [bundle_remove_go]
          simp only [hgetb]
          rw [if_neg (by omega : ¬ bpre.getD c (-1) < 0)]
          have hob : (if pyGet (s.winners_list.getD n []) (bpre.getD c (-1)) (-1) ≠ aid
              then true else false) = false := if_neg (fun hne => hne hw)
          rw [hob, if_neg Bool.false_ne_true]
          exact hrun
        · intro j h1 h2
          rcases Nat.eq_or_lt_of_le h1 with rfl | h1'
          · exact hw
          · exact hall j h1' h2
      · -- winner differs: `out_bid` flips and this very position is released
        have hmem := removeMid_mem_path h hc
        rcases firstIdx_some_of_mem _ _ hmem with ⟨ir, hfi⟩
        have hstep := remove_step_mid h hc
          (if pyGet (s.winners_list.getD n []) (bpre.getD c (-1)) (-1) = aid
            then pySet (s.winners_list.getD n []) (bpre.getD c (-1)) (-1)
            else s.winners_list.getD n [])
          (if pyGet (s.winners_list.getD n []) (bpre.getD c (-1)) (-1) = aid
            then pySet (s.winner_bid_list.getD n []) (bpre.getD c (-1)) (-1)
            else s.winner_bid_list.getD n []) hfi
        rcases remove_go_outbid len _ n aid bpre c (c + 1)
          (by show c + 1 + len = s.max_depth; omega) hstep with ⟨s', hrun, hsh, hmid⟩
        refine ⟨s', c, ?_, stShape_trans (remove_upd_shape s n _ _ c ir) hsh, le_refl c,
          by omega, fun j h1 h2 => by omega, fun _ => hw, hmid⟩
        show bundle_remove_go n aid (c :: List.range' (c + 1) len) s false = .ok s'
        rw [bundle_remove_go]
        simp only [hgetb]
        rw [if_neg (by omega : ¬ bpre.getD c (-1) < 0)]
        have hob : (if pyGet (s.winners_list.getD n []) (bpre.getD c (-1)) (-1) ≠ aid
            then true else false) = true := if_pos hw
        rw [hob, if_pos (Eq.refl true), hfi]
        exact hrun
    · -- the sentinel: the loop breaks before any mismatch
      have hcl : c = bpre.length := by omega
      have hD : bpre.length ≤ s.max_depth := h.2.2.1
      refine ⟨s, c, ?_, stShape_refl s, le_refl c, by omega, fun j h1 h2 => by omega,
        fun hlt => by omega, ?_⟩
      · rw [bundle_remove_go]
        rw [if_pos (by rw [hcl] at h ⊢; rw [removeMid_getD_end h (by omega)]; omega)]
      · subst hcl
        exact removeMid_collapse h

/-- The pristine mid-loop shape is exactly well-formedness of the agent's
rows. -/
theorem removeMid_agentWf {s : St} {n : Nat} {q : List Int} {i : Nat}
    (h : RemoveMid s n q i i) : AgentWf s n := by
  obtain ⟨_hi0c, hcL, hLD, hpos, hnd, hrow, ⟨ppre, hpclean, hperm, hpnd⟩, htlen, hslen,
    hnb, hnp, hnt, hns, hnbid⟩ := h
  refine ⟨hnb, hnp, hnt, hns, hnbid, q, ppre, ⟨?_, hLD, hpos⟩, hpclean, htlen, hslen, ?_, hpnd⟩
  · rw [hrow, Nat.sub_self]
    simp only [List.replicate_zero, List.append_nil]
    rw [List.take_append_drop]
  · have := hperm
    rwa [List.take_append_drop] at this

/-- Well-formedness restated as the pristine mid-loop shape at cursor 0, for
the row prefix `bpre` of the bundle row. -/
theorem agentWf_removeMid {s : St} {n : Nat} {bpre : List Int} (h : AgentWf s n)
    (hb : RowClean s.max_depth (s.bundle_list.getD n []) bpre) :
    RemoveMid s n bpre 0 0 := by
  obtain ⟨hnb, hnp, hnt, hns, hnbid, bpre0, ppre, hb0, hp, htlen, hslen, hperm, hpnd⟩ := h
  have hbe : bpre0 = bpre := rowClean_unique hb0 hb
  subst hbe
  refine ⟨le_refl 0, Nat.zero_le _, hb0.2.1, hb0.2.2, (hperm.nodup_iff).mpr hpnd, ?_,
    ⟨ppre, hp, ?_, hpnd⟩, htlen, hslen, hnb, hnp, hnt, hns, hnbid⟩
  · rw [hb0.1]
    simp
  · simpa using hperm

/-- Full specification of `bundle_remove`: it always succeeds from a
well-formed state; the released suffix starts at the first bundle position
whose believed winner differs from `aid = agent_index_list[n]`; the surviving
state is well-formed with bundle prefix `bpre.take i0`. -/
theorem bundle_remove_spec {s : St} {n : Nat} {bpre : List Int} (h : AgentWf s n)
    (hb : RowClean s.max_depth (s.bundle_list.getD n []) bpre) :
    ∃ s' i0, bundle_remove s n = .ok s' ∧ StShape s s' ∧ i0 ≤ bpre.length ∧
      (∀ j, j < i0 → pyGet (s.winners_list.getD n []) (bpre.getD j (-1)) (-1) =
        s.agent_index_list.getD n 0) ∧
      (i0 < bpre.length → pyGet (s.winners_list.getD n []) (bpre.getD i0 (-1)) (-1) ≠
        s.agent_index_list.getD n 0) ∧
      RowClean s.max_depth (s'.bundle_list.getD n []) (bpre.take i0) ∧
      AgentWf s' n := by
  have hmid := agentWf_removeMid h hb
  rcases remove_go_scan s.max_depth s n (s.agent_index_list.getD n 0) bpre 0
    (by omega) hmid with ⟨s', i0, hrun, hsh, _hci0, hi0L, hall, hmis, hmid'⟩
  refine ⟨s', i0, ?_, hsh, hi0L, fun j hj => hall j (Nat.zero_le j) hj, hmis, ?_,
    removeMid_agentWf hmid'⟩
  · unfold bundle_remove
    rw [List.range_eq_range']
    exact hrun
  · obtain ⟨_, hcL, hLD, hpos, _hnd, hrow, _⟩ := hmid'
    have hmd : s'.max_depth = s.max_depth := hsh.2.2.1
    refine ⟨?_, by rw [← hmd]; exact hLD, hpos⟩
    rw [hrow, Nat.sub_self]
    simp only [List.replicate_zero, List.append_nil]
    rw [List.take_append_drop, hmd]

/-- `communicate` rewrites only the winners and winning-bid beliefs: the
bundle, path, times, scores and bid rows — hence their well-formedness — are
untouched. -/
theorem communicate_agentWf {s : St} {tm : List (List ℚ)} {it : ℚ} {s' : St}
    {tm' : List (List ℚ)} (h : communicate s tm it = .ok (s', tm')) (n : Nat)
    (hwf : AgentWf s n) : AgentWf s' n := by
  unfold communicate at h
  cases hr : exceptFold (fun acc k => exceptFold (comm_pair s tm it k)
      (List.range s.num_agents) acc) (List.range s.num_agents)
      (s.winners_list, s.winner_bid_list, tm) with
  | error e => rw [hr] at h; exact Except.noConfusion h
  | ok r =>
    rw [hr] at h
    have hs : s' = { s with winners_list := r.1, winner_bid_list := r.2.1 } :=
      (Prod.mk.injEq _ _ _ _ ▸ Except.ok.inj h).1.symm
    rw [hs]
    exact hwf

/-- One insertion position of `compute_bid`'s inner loop keeps the running
best index inside `[0, pathLen]` whenever the running best bid is positive. -/
theorem compute_bid_pos_bound (m : MathFns) (cfg : Config) (s : St) (n it pl : Nat)
    (acc : BidAcc) (j : Nat) (acc' : BidAcc) (hj : j ≤ pl)
    (hb : 0 < acc.1 → 0 ≤ acc.2.1 ∧ acc.2.1 ≤ (pl : Int))
    (h : compute_bid_pos m cfg s n it pl acc j = .ok acc') :
    0 < acc'.1 → 0 ≤ acc'.2.1 ∧ acc'.2.1 ≤ (pl : Int) := by
  obtain ⟨bb, bi, bt, fs⟩ := acc
  unfold compute_bid_pos at h
  simp only [Bind.bind, Except.bind] at h
  split at h
  · -- feasible cell: the score comparison may move the best index to `j`
    split at h
    · exact Except.noConfusion h
    · rename_i trip heq
      obtain ⟨sc, mn, mx⟩ := trip
      dsimp only at h
      split at h
      · split at h
        · -- pruned cell: best bid and index unchanged
          have h' := Except.ok.inj h
          subst h'
          exact hb
        · split at h
          · -- improving score: best index becomes `j`
            have h' := Except.ok.inj h
            subst h'
            intro _
            refine ⟨Int.ofNat_nonneg j, ?_⟩
            show (j : Int) ≤ (pl : Int)
            exact_mod_cast hj
          · have h' := Except.ok.inj h
            subst h'
            exact hb
      · split at h
        · have h' := Except.ok.inj h
          subst h'
          intro _
          refine ⟨Int.ofNat_nonneg j, ?_⟩
          show (j : Int) ≤ (pl : Int)
          exact_mod_cast hj
        · have h' := Except.ok.inj h
          subst h'
          exact hb
  · -- infeasible cell: the accumulator is returned untouched
    have h' := Except.ok.inj h
    subst h'
    exact hb

/-- The inner insertion-position fold of `compute_bid`, run from its actual
start `(0, -1, -2, feasibility)`: a positive final best bid comes with a best
index inside `[0, pathLen]`. -/
theorem compute_bid_pos_fold (m : MathFns) (cfg : Config) (s : St) (n it pl : Nat)
    {fs : List (List Bool)} {r : BidAcc}
    (h : exceptFold (compute_bid_pos m cfg s n it pl) (List.range (pl + 1))
      ((0 : ℚ), (-1 : Int), (-2 : ℚ), fs) = .ok r) :
    0 < r.1 → 0 ≤ r.2.1 ∧ r.2.1 ≤ (pl : Int) := by
  refine @exceptFold_inv_mem BidAcc Nat (compute_bid_pos m cfg s n it pl)
    (fun a => 0 < a.1 → 0 ≤ a.2.1 ∧ a.2.1 ≤ (pl : Int)) (List.range (pl + 1)) _ r ?_ ?_ h
  · intro x b hbmem hx x' hstep
    exact compute_bid_pos_bound m cfg s n it pl x b x'
      (by have := List.mem_range.mp hbmem; omega) hx hstep
  · intro h0
    exact absurd h0 (lt_irrefl 0)

/-- The per-task body of `compute_bid`'s loop preserves the loop invariant:
a published positive bid comes with an in-range insertion index and passes
the duplicate guard. -/
theorem compute_bid_task_prop (m : MathFns) (cfg : Config) (s0 : St) (n pl : Nat)
    (hn : n < s0.bid_list.length)
    (acc : List Int × List ℚ × List (List Bool) × St) (it : Nat) (hit : it < s0.num_tasks)
    (hP : BidProp s0 n pl acc) (acc' : List Int × List ℚ × List (List Bool) × St)
    (h : compute_bid_task m cfg n pl acc it = .ok acc') : BidProp s0 n pl acc' := by
  obtain ⟨bidx, tt, fs, sa⟩ := acc
  obtain ⟨hse, hbl, hbil, hrow, hprop⟩ := hP
  dsimp only at hse hbl hbil hrow hprop
  obtain ⟨B, hB⟩ : ∃ B, sa = { s0 with bid_list := B } := ⟨sa.bid_list, hse⟩
  subst hB
  dsimp only at hbl hrow hprop h ⊢
  have hnB : n < B.length := by rw [hbl]; exact hn
  unfold compute_bid_task at h
  dsimp only at h
  split_ifs at h with h1 h2
  · -- compatible and not in the path: the insertion scan runs
    split at h
    · exact Except.noConfusion h
    · rename_i r heq
      split at h
      · -- positive best bid published into the row
        rename_i h3
        have h' := Except.ok.inj h
        subst h'
        refine ⟨rfl, ?_, ?_, ?_, ?_⟩
        · show (B.set n ((B.getD n []).set it r.1)).length = s0.bid_list.length
          rw [List.length_set]; exact hbl
        · show (bidx.set it r.2.1).length = s0.num_tasks
          rw [List.length_set]; exact hbil
        · show (((B.set n ((B.getD n []).set it r.1)).getD n []) : List ℚ).length = s0.num_tasks
          rw [getD_set_self _ n _ [] hnB, List.length_set]; exact hrow
        · intro j hj
          show 0 ≤ (bidx.set it r.2.1).getD j (-1) ∧
            (bidx.set it r.2.1).getD j (-1) ≤ (pl : Int) ∧
            ((s0.path_list.getD n []).take pl).countP (· == (j : Int)) = 0
          have hj' : 0 < ((B.getD n []).set it r.1).getD j (-1) := by
            have := hj
            rwa [getD_set_self _ n _ [] hnB] at this
          by_cases hjit : j = it
          · subst hjit
            have hbde : (bidx.set j r.2.1).getD j (-1) = r.2.1 :=
              getD_set_self _ j _ (-1) (by rw [hbil]; exact hit)
            have hbound := compute_bid_pos_fold m cfg _ n j pl heq h3
            exact ⟨by rw [hbde]; exact hbound.1, by rw [hbde]; exact hbound.2, h2⟩
          · have hbde : (bidx.set it r.2.1).getD j (-1) = bidx.getD j (-1) :=
              getD_set_ne _ it j _ (-1) (fun he => hjit he.symm)
            have hrow' : 0 < (B.getD n []).getD j (-1) := by
              rwa [getD_set_ne _ it j _ (-1) (fun he => hjit he.symm)] at hj'
            have := hprop j hrow'
            exact ⟨by rw [hbde]; exact this.1, by rw [hbde]; exact this.2.1, this.2.2⟩
      · -- no positive bid: only the feasibility matrix changes hands
        have h' := Except.ok.inj h
        subst h'
        exact ⟨rfl, hbl, hbil, hrow, hprop⟩
  · -- task already in the path: untouched
    have h' := Except.ok.inj h
    subst h'
    exact ⟨rfl, hbl, hbil, hrow, hprop⟩
  · -- incompatible task: untouched
    have h' := Except.ok.inj h
    subst h'
    exact ⟨rfl, hbl, hbil, hrow, hprop⟩

/-- Full invariant of a successful `compute_bid` call on a path with a free
slot: only `bid_list` changed, and every positive bid row entry comes with an
insertion index in `[0, pathLen]` for a task that passed the duplicate
guard. -/
theorem compute_bid_ok (m : MathFns) (cfg : Config) {s : St} {n : Nat}
    {feas : List (List Bool)} {pl : Nat} {r : List Int × List ℚ × List (List Bool) × St}
    (hfi : firstIdx (· == (-1 : Int)) (s.path_list.getD n []) = some pl)
    (hn : n < s.bid_list.length)
    (h : compute_bid m cfg s n feas = .ok r) : BidProp s n pl r := by
  unfold compute_bid at h
  rw [hfi] at h
  dsimp only at h
  refine @exceptFold_inv_mem (List Int × List ℚ × List (List Bool) × St) Nat
    (compute_bid_task m cfg n pl) (BidProp s n pl) (List.range s.num_tasks) _ r ?_ ?_ h
  · intro x b hbmem hx x' hstep
    exact compute_bid_task_prop m cfg s n pl hn x b (List.mem_range.mp hbmem) hx x' hstep
  · refine ⟨rfl, ?_, ?_, ?_, ?_⟩
    · show (s.bid_list.set n (List.replicate s.num_tasks (-1))).length = s.bid_list.length
      rw [List.length_set]
    · show (List.replicate s.num_tasks (-1 : Int)).length = s.num_tasks
      rw [List.length_replicate]
    · show (((s.bid_list.set n (List.replicate s.num_tasks (-1))).getD n []) : List ℚ).length
        = s.num_tasks
      rw [getD_set_self _ n _ [] hn, List.length_replicate]
    · intro j hj
      exfalso
      have hj' : 0 < ((List.replicate s.num_tasks (-1 : ℚ)).getD j (-1)) := by
        have := hj
        rwa [getD_set_self _ n _ [] hn] at this
      rcases Nat.lt_or_ge j s.num_tasks with hlt | hge
      · rw [getD_replicate_lt _ _ _ _ hlt] at hj'
        exact absurd hj' (by norm_num)
      · rw [List.getD_eq_default _ _ (by rw [List.length_replicate]; omega)] at hj'
        exact absurd hj' (by norm_num)

set_option maxHeartbeats 1600000 in
/-- A successful task selection in `bundle_add` picks a task index below
`num_tasks` whose bid row entry is the (strictly positive) selected value. -/
theorem select_task_some {s : St} {n j : Nat} (h : select_task s n = .ok (some j)) :
    j < s.num_tasks ∧ 0 < (s.bid_list.getD n []).getD j (-1) := by
  have hAlen : (array_max_list s n).length = s.num_tasks := by
    simp [array_max_list]
  simp only [select_task] at h
  cases hmax : argmaxIdx (array_max_list s n) with
  | none => rw [hmax] at h; exact absurd h (by simp)
  | some b0 =>
    rw [hmax] at h
    dsimp only at h
    by_cases hpos : pyMax (array_max_list s n) > 0
    · rw [if_pos hpos] at h
      have hb0 := argmaxIdx_spec _ _ hmax
      have hj := Option.some.inj (Except.ok.inj h)
      -- the chosen index is either the argmax or a member of `all_values`
      have hkey : j < s.num_tasks ∧
          (array_max_list s n).getD j 0 = pyMax (array_max_list s n) := by
        by_cases hlen : ((List.range s.num_tasks).filter
            (fun j' => (array_max_list s n).getD j' 0 == pyMax (array_max_list s n))).length = 1
        · rw [if_pos hlen] at hj
          rcases List.length_eq_one.mp hlen with ⟨x, hx⟩
          rw [hx] at hj
          simp only [List.headD_cons] at hj
          have hxm : x ∈ (List.range s.num_tasks).filter
              (fun j' => (array_max_list s n).getD j' 0 == pyMax (array_max_list s n)) := by
            rw [hx]; exact List.mem_singleton_self _
          rw [List.mem_filter, List.mem_range] at hxm
          rw [← hj]
          exact ⟨hxm.1, beq_iff_eq.mp hxm.2⟩
        · rw [if_neg hlen] at hj
          subst hj
          unfold tie_break
          rcases tie_break_fold_spec s.TaskList ((List.range s.num_tasks).filter
              (fun j' => (array_max_list s n).getD j' 0 == pyMax (array_max_list s n)))
              FLOAT_MAX b0 with ⟨h1, _⟩ | ⟨h1, _⟩
          · rw [h1]
            exact ⟨hAlen ▸ hb0.1, hb0.2⟩
          · rw [List.mem_filter, List.mem_range] at h1
            exact ⟨h1.1, beq_iff_eq.mp h1.2⟩
      refine ⟨hkey.1, ?_⟩
      have hentry : (array_max_list s n).getD j 0 =
          (if bid_mask (s.agent_index_list.getD n 0) (s.bid_list.getD n [])
            (s.winner_bid_list.getD n []) (s.winners_list.getD n []) j then
            (s.bid_list.getD n []).getD j (-1) else 0) := by
        simp only [array_max_list]
        exact getD_map_range _ _ _ _ hkey.1
      by_cases hmsk : bid_mask (s.agent_index_list.getD n 0) (s.bid_list.getD n [])
          (s.winner_bid_list.getD n []) (s.winners_list.getD n []) j = true
      · rw [hmsk, if_pos rfl] at hentry
        rw [← hentry, hkey.2]
        exact hpos
      · rw [if_neg hmsk] at hentry
        exfalso
        rw [hentry] at hkey
        rw [← hkey.2] at hpos
        exact absurd hpos (lt_irrefl 0)
    · rw [if_neg hpos] at h
      exact Option.noConfusion (Except.ok.inj h)

/-- One successful insertion pass of `bundle_add` preserves well-formedness
of the agent's rows, and records the winner of the added task `j*` by writing
`AgentList[idx_agent].agent_id` into `winners[idx_agent][j*]`. -/
theorem bundle_add_step_spec (m : MathFns) (cfg : Config) {s : St} {n : Nat}
    {feas : List (List Bool)} {s' : St} {feas' : List (List Bool)}
    (hwf : AgentWf s n) (hfree : (-1 : Int) ∈ s.bundle_list.getD n [])
    (h : bundle_add_step m cfg s n feas = .ok (some (s', feas'))) :
    AgentWf s' n ∧
    ∃ j, j < s.num_tasks ∧ s'.winners_list = s.winners_list.set n
      ((s.winners_list.getD n []).set j ((s.AgentList.getD n dAgent).agent_id)) := by
  obtain ⟨hnb, hnp, hnt, hns, hnbid, bpre, ppre, hbclean, hpclean, htlen, hslen, hperm, hpnd⟩ :=
    hwf
  have hLb : bpre.length < s.max_depth := rowClean_lt_of_mem_neg hbclean hfree
  have hLp : ppre.length = bpre.length := (hperm.length_eq).symm
  have hfi : firstIdx (· == (-1 : Int)) (s.path_list.getD n []) = some ppre.length :=
    firstIdx_clean hpclean (by omega)
  unfold bundle_add_step at h
  cases hcb : compute_bid m cfg s n feas with
  | error e => rw [hcb] at h; exact Except.noConfusion h
  | ok r =>
    rw [hcb] at h
    obtain ⟨bidx, ttimes, fs2, s1⟩ := r
    have hbp := compute_bid_ok m cfg hfi hnbid hcb
    obtain ⟨hse, hbl, hbil, hrow, hprop⟩ := hbp
    dsimp only at hse hbl hbil hrow hprop h
    obtain ⟨B, hB⟩ : ∃ B, s1 = { s with bid_list := B } := ⟨s1.bid_list, hse⟩
    subst hB
    dsimp only at hbl hrow hprop h
    cases hsel : select_task { s with bid_list := B } n with
    | error e => rw [hsel] at h; exact Except.noConfusion h
    | ok ob =>
      rw [hsel] at h
      cases ob with
      | none => exact Option.noConfusion (Except.ok.inj h)
      | some bt =>
        dsimp only at h
        have hst := select_task_some hsel
        dsimp only at hst
        have hbt : bt < s.num_tasks := hst.1
        have hbid_pos : 0 < (B.getD n []).getD bt (-1) := hst.2
        have hpr := hprop bt hbid_pos
        obtain ⟨hbi0, hbile, hcnt⟩ := hpr
        have hpair := Option.some.inj (Except.ok.inj h)
        obtain ⟨hs', hf'⟩ := Prod.mk.inj hpair
        -- names for the pieces of the inserted row
        have htake : (s.path_list.getD n []).take ppre.length = ppre := by
          rw [hpclean.1]
          exact List.take_left ppre _
        have hbtnot : (bt : Int) ∉ ppre := by
          intro hmem
          have h0 := List.countP_eq_zero.mp hcnt (bt : Int) (by rw [htake]; exact hmem)
          exact absurd (beq_self_eq_true (bt : Int)) (by simpa using h0)
        have hk : (bidx.getD bt (-1)).toNat ≤ ppre.length := by omega
        subst hs'
        constructor
        · -- well-formedness of the updated rows
          refine ⟨by simpa using hnb, by simpa using hnp, by simpa using hnt,
            by simpa using hns, by simpa using (hbl ▸ hnbid : n < B.length),
            bpre ++ [(bt : Int)],
            ppre.take (bidx.getD bt (-1)).toNat ++ (bt : Int) :: ppre.drop (bidx.getD bt (-1)).toNat,
            ?_, ?_, ?_, ?_, ?_, ?_⟩
          · -- bundle row: the task appended at the first free slot
            show RowClean s.max_depth
              ((s.bundle_list.set n ((s.bundle_list.getD n []).set
                ((s.bundle_list.getD n []).countP (· > (-1 : Int))) (bt : Int))).getD n [])
              (bpre ++ [(bt : Int)])
            rw [getD_set_self _ n _ [] hnb, countP_clean hbclean]
            have hrow0 : s.bundle_list.getD n [] =
                bpre ++ List.replicate (s.max_depth - bpre.length) (-1) := hbclean.1
            rw [hrow0, set_append_right' _ _ _ _ (le_refl _), Nat.sub_self]
            have hrepl : List.replicate (s.max_depth - bpre.length) (-1 : Int) =
                (-1 : Int) :: List.replicate (s.max_depth - bpre.length - 1) (-1) := by
              have : s.max_depth - bpre.length = (s.max_depth - bpre.length - 1) + 1 := by omega
              rw [this, List.replicate_succ]
              simp
            rw [hrepl]
            refine ⟨?_, by rw [List.length_append, List.length_cons]; simp; omega, ?_⟩
            · show bpre ++ (bt : Int) :: List.replicate (s.max_depth - bpre.length - 1) (-1) =
                (bpre ++ [(bt : Int)]) ++
                  List.replicate (s.max_depth - (bpre ++ [(bt : Int)]).length) (-1)
              rw [List.append_assoc]
              have : s.max_depth - (bpre ++ [(bt : Int)]).length
                  = s.max_depth - bpre.length - 1 := by
                rw [List.length_append, List.length_cons]; simp; omega
              rw [this]
              rfl
            · intro b hb
              rcases List.mem_append.mp hb with hb | hb
              · exact hbclean.2.2 b hb
              · rw [List.mem_singleton] at hb
                subst hb
                exact Int.ofNat_nonneg bt
          · -- path row: the task inserted at its best position
            show RowClean s.max_depth
              ((s.path_list.set n (pyInsertDropLast (s.path_list.getD n [])
                (bidx.getD bt (-1)) (bt : Int))).getD n []) _
            rw [getD_set_self _ n _ [] hnp]
            have hrow0 : s.path_list.getD n [] =
                (ppre ++ List.replicate (s.max_depth - ppre.length - 1) (-1)) ++ [(-1 : Int)] := by
              rw [hpclean.1]
              have : s.max_depth - ppre.length = (s.max_depth - ppre.length - 1) + 1 := by omega
              rw [this, List.replicate_succ', ← List.append_assoc]
              simp
            rw [hrow0, pyInsertDropLast_eq _ _ _ _ hbi0
              (by rw [List.length_append, List.length_replicate]; omega)]
            rw [List.take_append_of_le_length hk, List.drop_append_of_le_length hk]
            have hlen' : (ppre.take (bidx.getD bt (-1)).toNat ++
                (bt : Int) :: ppre.drop (bidx.getD bt (-1)).toNat).length = ppre.length + 1 := by
              rw [List.length_append, List.length_cons, List.length_take, List.length_drop]
              omega
            refine ⟨?_, by rw [hlen']; omega, ?_⟩
            · show ppre.take (bidx.getD bt (-1)).toNat ++ ((bt : Int) ::
                (ppre.drop (bidx.getD bt (-1)).toNat ++
                  List.replicate (s.max_depth - ppre.length - 1) (-1))) = _
              rw [hlen']
              have : s.max_depth - (ppre.length + 1) = s.max_depth - ppre.length - 1 := by omega
              rw [this, List.append_assoc]
              rfl
            · intro b hb
              rcases List.mem_append.mp hb with hb | hb
              · exact hpclean.2.2 b (List.mem_of_mem_take hb)
              · rcases List.mem_cons.mp hb with rfl | hb
                · exact Int.ofNat_nonneg bt
                · exact hpclean.2.2 b (List.mem_of_mem_drop hb)
          · show ((s.times_list.set n (pyInsertDropLast (s.times_list.getD n [])
                (bidx.getD bt (-1)) (ttimes.getD bt (-2)))).getD n []).length = s.max_depth
            rw [getD_set_self _ n _ [] hnt,
              pyInsertDropLast_length _ _ _ hbi0 (by rw [htlen]; omega)]
            exact htlen
          · show ((s.scores_list.set n (pyInsertDropLast (s.scores_list.getD n [])
                (bidx.getD bt (-1)) ((B.getD n []).getD bt (-1)))).getD n []).length
              = s.max_depth
            rw [getD_set_self _ n _ [] hns,
              pyInsertDropLast_length _ _ _ hbi0 (by rw [hslen]; omega)]
            exact hslen
          · -- the bundle and path prefixes stay permutations of each other
            have p1 : List.Perm (bpre ++ [(bt : Int)]) ((bt : Int) :: bpre) :=
              List.perm_append_singleton _ _
            have p2 : List.Perm ((bt : Int) :: bpre) ((bt : Int) :: ppre) := hperm.cons _
            have p3 : List.Perm (ppre.take (bidx.getD bt (-1)).toNat ++
                (bt : Int) :: ppre.drop (bidx.getD bt (-1)).toNat) ((bt : Int) :: ppre) := by
              have := @List.perm_middle Int (bt : Int)
                (ppre.take (bidx.getD bt (-1)).toNat)
                (ppre.drop (bidx.getD bt (-1)).toNat)
              rwa [List.take_append_drop] at this
            exact (p1.trans p2).trans p3.symm
          · -- no duplicates in the new path prefix
            have p3 : List.Perm (ppre.take (bidx.getD bt (-1)).toNat ++
                (bt : Int) :: ppre.drop (bidx.getD bt (-1)).toNat) ((bt : Int) :: ppre) := by
              have := @List.perm_middle Int (bt : Int)
                (ppre.take (bidx.getD bt (-1)).toNat)
                (ppre.drop (bidx.getD bt (-1)).toNat)
              rwa [List.take_append_drop] at this
            exact (p3.nodup_iff).mpr (List.nodup_cons.mpr ⟨hbtnot, hpnd⟩)
        · -- the recorded winner is the agent_id
          exact ⟨bt, hbt, rfl⟩

/-- The `while not bundle_full_flag` loop of `bundle_add` preserves
well-formedness of the agent's rows. -/
theorem bundle_add_loop_wf (m : MathFns) (cfg : Config) (n : Nat) :
    ∀ (fuel : Nat) (s : St) (feas : List (List Bool)) (flag : Bool) (s' : St) (flag' : Bool),
    AgentWf s n → bundle_add_loop m cfg fuel s n feas flag = .ok (s', flag') →
    AgentWf s' n := by
  intro fuel
  induction fuel with
  | zero =>
    intro s feas flag s' flag' hwf h
    rw [bundle_add_loop] at h
    obtain ⟨h1, _⟩ := Prod.mk.inj (Except.ok.inj h)
    rw [← h1]
    exact hwf
  | succ fuel ih =>
    intro s feas flag s' flag' hwf h
    rw [bundle_add_loop] at h
    by_cases hfree : (-1 : Int) ∈ s.bundle_list.getD n []
    · rw [if_pos hfree] at h
      cases hstep : bundle_add_step m cfg s n feas with
      | error e => rw [hstep] at h; exact Except.noConfusion h
      | ok ob =>
        rw [hstep] at h
        cases ob with
        | none =>
          obtain ⟨h1, _⟩ := Prod.mk.inj (Except.ok.inj h)
          rw [← h1]
          exact hwf
        | some p =>
          obtain ⟨s1, f1⟩ := p
          exact ih s1 f1 true s' flag' (bundle_add_step_spec m cfg hwf hfree hstep).1 h
    · rw [if_neg hfree] at h
      obtain ⟨h1, _⟩ := Prod.mk.inj (Except.ok.inj h)
      rw [← h1]
      exact hwf

/-- `bundle_add` preserves well-formedness of the agent's rows. -/
theorem bundle_add_wf (m : MathFns) (cfg : Config) {s : St} {n : Nat} {s' : St} {fl : Bool}
    (hwf : AgentWf s n) (h : bundle_add m cfg s n = .ok (s', fl)) : AgentWf s' n := by
  unfold bundle_add at h
  exact bundle_add_loop_wf m cfg n (s.max_depth + 1) s _ false s' fl hwf h

/-- C8: from any well-formed per-agent state — as produced by `settings` at
the start of `solve`, whose rows trivially satisfy the invariant — the claim's
invariant holds (the non-sentinel entries of `path[n]` are pairwise distinct
and the non-sentinel entries of `bundle[n]` and `path[n]` agree as
multisets), and it is preserved by each phase of a round: `communicate`
(which rewrites only winners and winning bids), `bundle_remove` (which always
succeeds) and `bundle_add`. -/
theorem C8_state_invariant (m : MathFns) (cfg : Config) (s : St) (n : Nat)
    (hwf : AgentWf s n) :
    PathInv s n ∧
    (∀ A T w d f k, k < A.length → PathInv (settings A T w d f) k) ∧
    (∀ tm it s' tm', communicate s tm it = .ok (s', tm') → AgentWf s' n ∧ PathInv s' n) ∧
    (∃ s', bundle_remove s n = .ok s' ∧ AgentWf s' n ∧ PathInv s' n) ∧
    (∀ s' fl, bundle_add m cfg s n = .ok (s', fl) → AgentWf s' n ∧ PathInv s' n) := by
  have hwf' := hwf
  refine ⟨agentWf_pathInv hwf,
    fun A T w d f k hk => agentWf_pathInv (settings_agentWf A T w d f k hk), ?_, ?_, ?_⟩
  · intro tm it s' tm' h
    have hw := communicate_agentWf h n hwf
    exact ⟨hw, agentWf_pathInv hw⟩
  · obtain ⟨-, -, -, -, -, bpre, ppre, hb, -⟩ := hwf
    rcases bundle_remove_spec hwf' hb with ⟨s', i0, hrun, _, _, _, _, _, hw⟩
    exact ⟨s', hrun, hw, agentWf_pathInv hw⟩
  · intro s' fl h
    have hw := bundle_add_wf m cfg hwf h
    exact ⟨hw, agentWf_pathInv hw⟩

/-- Witness for C8_state_invariant at the fresh one-agent, one-task state. -/
theorem C8_state_invariant_witness :
    PathInv (settings [agent0] [task0] wTriv 1 true) 0 :=
  (C8_state_invariant mathAt0 cfgQC (settings [agent0] [task0] wTriv 1 true) 0
    (settings_agentWf [agent0] [task0] wTriv 1 true 0 (by decide))).1

/-- C4 (amended): `bundle_remove(n)` releases the bundle suffix from the
first position whose task's `winners[n]` entry differs from
`agent_index_list[n]` — the agent's `agent_id`, not its list position — and
`bundle_add(n)` records the winner of an added task `j*` by setting
`winners[n][j*]` to `AgentList[n].agent_id`; the processing therefore
coincides with the claimed position-`n` behaviour only when `agent_id`
equals the agent's position in `AgentList`. -/
theorem C4_remove_add_use_agent_id :
    (∀ (s : St) (n : Nat) (bpre : List Int), AgentWf s n →
      RowClean s.max_depth (s.bundle_list.getD n []) bpre →
      ∃ s' i0, bundle_remove s n = .ok s' ∧ i0 ≤ bpre.length ∧
        (∀ j, j < i0 → pyGet (s.winners_list.getD n []) (bpre.getD j (-1)) (-1) =
          s.agent_index_list.getD n 0) ∧
        (i0 < bpre.length → pyGet (s.winners_list.getD n []) (bpre.getD i0 (-1)) (-1) ≠
          s.agent_index_list.getD n 0) ∧
        RowClean s.max_depth (s'.bundle_list.getD n []) (bpre.take i0)) ∧
    (∀ (m : MathFns) (cfg : Config) (s : St) (n : Nat) (feas : List (List Bool))
      (s' : St) (feas' : List (List Bool)), AgentWf s n →
      (-1 : Int) ∈ s.bundle_list.getD n [] →
      bundle_add_step m cfg s n feas = .ok (some (s', feas')) →
      ∃ j, j < s.num_tasks ∧ s'.winners_list = s.winners_list.set n
        ((s.winners_list.getD n []).set j ((s.AgentList.getD n dAgent).agent_id))) := by
  constructor
  · intro s n bpre hwf hb
    rcases bundle_remove_spec hwf hb with ⟨s', i0, hrun, _, h1, h2, h3, h4, _⟩
    exact ⟨s', i0, hrun, h1, h2, h3, h4⟩
  · intro m cfg s n feas s' feas' hwf hfree h
    exact (bundle_add_step_spec m cfg hwf hfree h).2

/-- Witness for C4_remove_add_use_agent_id: at `sR` (bundle prefix `[0]`,
believed winner 7 ≠ agent id 0) the remove pass runs and is characterized by
the theorem's first conjunct. -/
theorem C4_remove_add_use_agent_id_witness :
    ∃ s' i0, bundle_remove sR 0 = .ok s' ∧ i0 ≤ ([0] : List Int).length ∧
      (∀ j, j < i0 → pyGet (sR.winners_list.getD 0 []) (([0] : List Int).getD j (-1)) (-1) =
        sR.agent_index_list.getD 0 0) ∧
      (i0 < ([0] : List Int).length → pyGet (sR.winners_list.getD 0 [])
        (([0] : List Int).getD i0 (-1)) (-1) ≠ sR.agent_index_list.getD 0 0) ∧
      RowClean sR.max_depth (s'.bundle_list.getD 0 []) (([0] : List Int).take i0) :=
  C4_remove_add_use_agent_id.1 sR 0 [0]
    ⟨by with_unfolding_all decide, by with_unfolding_all decide, by with_unfolding_all decide,
      by with_unfolding_all decide, by with_unfolding_all decide, [0], [0],
      ⟨by with_unfolding_all decide, by with_unfolding_all decide, by with_unfolding_all decide⟩,
      ⟨by with_unfolding_all decide, by with_unfolding_all decide, by with_unfolding_all decide⟩,
      by with_unfolding_all decide,
      by with_unfolding_all decide, List.Perm.refl [0], by decide⟩
    ⟨by with_unfolding_all decide, by with_unfolding_all decide, by with_unfolding_all decide⟩

end CBBA
